import Mathlib

/-!
# The `dm` array container and helpers: embedding and verification

Source files embedded here:

* `include/dm/datastructures/array_inline_impl.h`: the member functions shared
  by the array structures (`resize`, `expandIfNecessaryToMakeRoomFor`, `shrink`,
  `reserve`, `add`, `cut`, `remove`, `removeSwap`, `pop`, `get`, `operator[]`,
  `elements`, `zero`, `fillWith`, `reset`);
* `include/dm/misc.h`: `dm::max`, `asMBInt`, `asMBDec`, `align`,
  `alignSizeNext`, `trim`.

Conventions.

* `uint32_t` values are natural numbers; every `uint32_t` addition and
  subtraction of the source is written with `add32` / `sub32`, which reduce
  modulo `2^32`.
* The memory block `m_values` points to is a `Storage`: the address of the block
  and the contents of its slots. Slots are indexed by all natural numbers: the
  model says what a read or a write at an index does, not where the allocation
  ends; bounds are stated as properties of the indices. The allocator is outside
  the sources; the block it hands back on a call is a parameter named `fresh`
  (the address it returns and whatever the new memory happens to contain), and
  it is assumed to deliver the requested block.
* `array_inline_impl.h` is compiled in two configurations: with
  `DM_DYNAMIC_ARRAY` defined (the array has `resize`, `shrink` and grows inside
  `reserve`) and without it (fixed capacity). The flag is the Boolean parameter
  `dyn` of `reserve` and `add`.
* `DM_CHECK` (declared in `check.h`, outside the sources) is the failure
  reporting hook: when its condition is false the member function stops there
  and reports the violation, as an `Error`.
* Every member function with a check returns its result together with the
  state it leaves behind, so that the state after a failed check can be
  inspected.
-/

namespace dm

/-! ## Machine integers -/

/-- Addition of `uint32_t`: wraps modulo `2^32`. -/
def add32 (a b : Nat) : Nat := (a + b) % 2 ^ 32

/-- Subtraction of `uint32_t` values `a`, `b`: `a - b` when `b ≤ a`, and the
wrapped value `a + 2^32 - b` otherwise, reduced modulo `2^32`. -/
def sub32 (a b : Nat) : Nat := (if b ≤ a then a - b else a + 2 ^ 32 - b) % 2 ^ 32

/-- Function `dm::max` of misc.h: `_a > _b ? _a : _b`. -/
def max (_a _b : Nat) : Nat := if _a > _b then _a else _b

/-! ## Failure reporting -/

/-- Modelled from the spec: the kinds of contract violation a failed `DM_CHECK`
reports (section 7 of the specification; `check.h` is not among the sources).
The check in `reserve` is a `CapacityExceeded`, the checks of an index against
`max()` are `IndexOutOfRange`, and the checks of `m_count` in `remove`,
`removeSwap` and `pop` are `Underflow`. -/
inductive Error where
  | IndexOutOfRange
  | CapacityExceeded
  | Underflow
  deriving DecidableEq

/-! ## Memory -/

/-- The block of memory behind `m_values`: where it is, and what each slot
holds. Slot `i` is `m_values[i]`. -/
structure Storage (T : Type) where
  addr : Nat
  slot : Nat → T

/-- Assignment `m_values[i] = v`. -/
def Storage.write {T : Type} (m : Storage T) (i : Nat) (v : T) : Storage T :=
  { m with slot := fun j => if j = i then v else m.slot j }

/-- Library call `memmove(&m[dst], &m[src], len*sizeof(Ty))`: the `len` slots
starting at `src` are copied to the slots starting at `dst`, the source being
read as it was before the call. -/
def Storage.memmove {T : Type} (m : Storage T) (dst src len : Nat) : Storage T :=
  { m with slot := fun j => if dst ≤ j ∧ j < dst + len then m.slot (src + (j - dst)) else m.slot j }

/-- Library call `memset(m, 0, len*sizeof(Ty))`: the first `len` slots become the
zero value of `Ty`. -/
def Storage.memset0 {T : Type} [Zero T] (m : Storage T) (len : Nat) : Storage T :=
  { m with slot := fun j => if j < len then 0 else m.slot j }

/-- Modelled from the spec: `BX_REALLOC(m_reallocator, m_values, sizeFor(_max))`
(the allocator and `sizeFor` are not among the sources). The block handed back
is at the address of `fresh`, holds `newMax` elements, and keeps the old
contents of every slot below `min(oldMax, newMax)`; the other slots hold what
`fresh` holds. -/
def BX_REALLOC {T : Type} (fresh old : Storage T) (oldMax newMax : Nat) : Storage T :=
  { addr := fresh.addr
    slot := fun j => if j < min oldMax newMax then old.slot j else fresh.slot j }

/-- Modelled from the spec: `BX_ALLOC(m_allocator, sizeFor(_max))` (the allocator
is not among the sources): a new block, unrelated to the old one. -/
def BX_ALLOC {T : Type} (fresh : Storage T) : Storage T := fresh

/-! ## The array -/

/-- The data members the functions of `array_inline_impl.h` use. `m_cleanup` is
true when `m_values` was allocated internally (owning mode) and false when it
was passed as a pointer (non-owning mode). -/
structure Array (T : Type) where
  m_values : Storage T
  m_count : Nat
  m_max : Nat
  m_cleanup : Bool

namespace Array

variable {T : Type}

/-- Member `max()`, the capacity: it is declared next to the data members,
outside the sources, and is taken to return the capacity held in `m_max`. -/
def max (s : Array T) : Nat := s.m_max

/-- Source lines 7 to 23, `resize`. -/
def resize (fresh : Storage T) (_max : Nat) (s : Array T) : Array T :=
  let values :=
    if s.m_cleanup then
      BX_REALLOC fresh s.m_values s.m_max _max
    else
      if _max > s.m_max then BX_ALLOC fresh else s.m_values
  { s with
    m_values := values
    m_max := _max
    m_count := if _max < s.m_count then _max else s.m_count }

/-- Source lines 25 to 34, `expandIfNecessaryToMakeRoomFor`. -/
def expandIfNecessaryToMakeRoomFor (fresh : Storage T) (_count : Nat) (s : Array T) : Array T :=
  let needed := add32 s.m_count _count
  if needed > s.m_max then
    let proposedMax := add32 s.m_max (s.m_max >>> 1)
    let newMax := dm.max proposedMax needed
    resize fresh newMax s
  else
    s

/-- Source lines 36 to 39, `shrink`. -/
def shrink (fresh : Storage T) (s : Array T) : Array T :=
  resize fresh s.m_count s

/-- Source lines 42 to 53, `reserve`. The pointer `&m_values[curr]` it returns is
given as the index `curr` into the block `m_values` of the state returned. -/
def reserve (dyn : Bool) (fresh : Storage T) (_count : Nat) (s : Array T) :
    Except Error Nat × Array T :=
  let s1 := if dyn then expandIfNecessaryToMakeRoomFor fresh _count s else s
  if s1.m_count < s1.max then
    let curr := s1.m_count
    (.ok curr, { s1 with m_count := add32 s1.m_count _count })
  else
    (.error .CapacityExceeded, s1)

/-- Source lines 55 to 59, `add`. -/
def add (dyn : Bool) (fresh : Storage T) (_value : T) (s : Array T) :
    Except Error Unit × Array T :=
  match reserve dyn fresh 1 s with
  | (.ok elem, s1) => (.ok (), { s1 with m_values := s1.m_values.write elem _value })
  | (.error e, s1) => (.error e, s1)

/-- Source lines 61 to 66, `cut`. -/
def cut (_idx : Nat) (s : Array T) : Except Error Unit × Array T :=
  if _idx < s.max then
    (.ok (), { s with m_count := _idx })
  else
    (.error .IndexOutOfRange, s)

/-- Number of elements `remove` hands to `memmove`: `m_count-_idx-1` in
`uint32_t` arithmetic. -/
def removeMoveLen (_idx : Nat) (s : Array T) : Nat :=
  sub32 (sub32 s.m_count _idx) 1

/-- Source lines 68 to 81, `remove`. -/
def remove (_idx : Nat) (s : Array T) : Except Error T × Array T :=
  if 0 < s.m_count ∧ s.m_count ≤ s.max then
    if _idx < s.max then
      let val := s.m_values.slot _idx
      let elem := _idx
      let next := add32 _idx 1
      let values := s.m_values.memmove elem next (removeMoveLen _idx s)
      (.ok val, { s with m_values := values, m_count := sub32 s.m_count 1 })
    else
      (.error .IndexOutOfRange, s)
  else
    (.error .Underflow, s)

/-- Source lines 84 to 92, `removeSwap`. -/
def removeSwap (_idx : Nat) (s : Array T) : Except Error T × Array T :=
  if 0 < s.m_count ∧ s.m_count ≤ s.max then
    if _idx < s.max then
      let val := s.m_values.slot _idx
      let count := sub32 s.m_count 1
      (.ok val, { s with m_values := s.m_values.write _idx (s.m_values.slot count), m_count := count })
    else
      (.error .IndexOutOfRange, s)
  else
    (.error .Underflow, s)

/-- Source lines 94 to 99, `pop`. -/
def pop (s : Array T) : Except Error T × Array T :=
  if 0 < s.m_count then
    let count := sub32 s.m_count 1
    (.ok (s.m_values.slot count), { s with m_count := count })
  else
    (.error .Underflow, s)

/-- Source lines 101 to 106, `get`. -/
def get (_idx : Nat) (s : Array T) : Except Error T × Array T :=
  if _idx < s.max then (.ok (s.m_values.slot _idx), s) else (.error .IndexOutOfRange, s)

/-- Source lines 108 to 113, `operator[] const`. -/
def indexConst (_idx : Nat) (s : Array T) : Except Error T × Array T :=
  if _idx < s.max then (.ok (s.m_values.slot _idx), s) else (.error .IndexOutOfRange, s)

/-- Source lines 115 to 120, `operator[]` returning `Ty&`. The reference
`m_values[_idx]` is given as the index of the slot it refers to. -/
def indexRef (_idx : Nat) (s : Array T) : Except Error Nat × Array T :=
  if _idx < s.max then (.ok _idx, s) else (.error .IndexOutOfRange, s)

/-- Source lines 122 to 125, `elements`. -/
def elements (s : Array T) : Storage T := s.m_values

/-- Source lines 127 to 130, `zero`. -/
def zero [Zero T] (s : Array T) : Array T :=
  { s with m_values := s.m_values.memset0 s.max }

/-- The loop of `fillWith`, `for (uint32_t ii = max(); ii--; ) m_values[ii] = _value`,
entered with the counter at `ii`. -/
def fillWithLoop (_value : T) : Nat → Storage T → Storage T
  | 0, m => m
  | ii + 1, m => fillWithLoop _value ii (m.write ii _value)

/-- Source lines 132 to 138, `fillWith`. -/
def fillWith (_value : T) (s : Array T) : Array T :=
  { s with m_values := fillWithLoop _value s.max s.m_values }

/-- Source lines 140 to 143, `reset`. -/
def reset (s : Array T) : Array T :=
  { s with m_count := 0 }

/-- Logical contents: the elements at the indices below `m_count`, in order. -/
def contents (s : Array T) : List T :=
  (List.range s.m_count).map s.m_values.slot

/-- Modelled from the spec: construction `withCapacity(n)` (the constructors are
declared outside the sources): owning mode, capacity `n`, count 0, over a block
`mem` obtained from the allocator. -/
def withCapacity (mem : Storage T) (n : Nat) : Array T :=
  { m_values := mem, m_count := 0, m_max := n, m_cleanup := true }

/-- Modelled from the spec: construction `overBuffer(bufferRef, capacity)` (the
constructors are declared outside the sources): non-owning mode, bound to the
caller memory `bufferRef`, count 0, capacity as given. -/
def overBuffer (bufferRef : Storage T) (capacity : Nat) : Array T :=
  { m_values := bufferRef, m_count := 0, m_max := capacity, m_cleanup := false }

/-! ## Callers -/

/-- A caller that calls `add` once for each value of a list, in order, and stops
at the first call that fails. The allocator hands back `fresh k` on the call
numbered `k`. -/
def addAll (dyn : Bool) (fresh : Nat → Storage T) : List T → Array T → Except Error Unit × Array T
  | [], s => (.ok (), s)
  | v :: vs, s =>
    match add dyn (fresh 0) v s with
    | (.ok _, s1) => addAll dyn (fun k => fresh (k + 1)) vs s1
    | (.error e, s1) => (.error e, s1)

/-- A caller that calls `pop` `n` times and collects the values returned, first
call first, stopping at the first call that fails. -/
def popN : Nat → Array T → Except Error (List T) × Array T
  | 0, s => (.ok [], s)
  | n + 1, s =>
    match pop s with
    | (.ok v, s1) =>
      match popN n s1 with
      | (.ok vs, s2) => (.ok (v :: vs), s2)
      | (.error e, s2) => (.error e, s2)
    | (.error e, s1) => (.error e, s1)

/-- A caller that writes a list of values through the pointer `reserve`
returned: `elem[j] = vs[j]` for each `j`, with `elem = &m_values[curr]`. -/
def writeSlots : List T → Nat → Array T → Array T
  | [], _, s => s
  | v :: vs, curr, s => writeSlots vs (curr + 1) { s with m_values := s.m_values.write curr v }

/-- The operations that change the array, with their arguments. -/
inductive Op (T : Type) where
  | resize (_max : Nat)
  | shrink
  | reserve (_count : Nat)
  | add (_value : T)
  | cut (_idx : Nat)
  | remove (_idx : Nat)
  | removeSwap (_idx : Nat)
  | pop
  | zero
  | fillWith (_value : T)
  | reset

/-- The state an operation leaves behind, whether it succeeded or failed. -/
def Op.run [Zero T] (dyn : Bool) (fresh : Storage T) : Op T → Array T → Array T
  | .resize _max, s => Array.resize fresh _max s
  | .shrink, s => Array.shrink fresh s
  | .reserve _count, s => (Array.reserve dyn fresh _count s).2
  | .add _value, s => (Array.add dyn fresh _value s).2
  | .cut _idx, s => (Array.cut _idx s).2
  | .remove _idx, s => (Array.remove _idx s).2
  | .removeSwap _idx, s => (Array.removeSwap _idx s).2
  | .pop, s => (Array.pop s).2
  | .zero, s => Array.zero s
  | .fillWith _value, s => Array.fillWith _value s
  | .reset, s => Array.reset s

/-- Number of calls of `resize` that `expandIfNecessaryToMakeRoomFor(_count)`
makes: one when `needed > m_max`, none otherwise. -/
def expandResizeCalls (_count : Nat) (s : Array T) : Nat :=
  if add32 s.m_count _count > s.m_max then 1 else 0

/-- Number of calls of `resize` made during the calls of `add` of `addAll`, in
the dynamic array: each `add` is `reserve(1)`, which runs
`expandIfNecessaryToMakeRoomFor(1)`. -/
def addAllResizeCalls (fresh : Nat → Storage T) : List T → Array T → Nat
  | [], _ => 0
  | v :: vs, s =>
    expandResizeCalls 1 s +
      match add true (fresh 0) v s with
      | (.ok _, s1) => addAllResizeCalls (fun k => fresh (k + 1)) vs s1
      | (.error _, _) => 0

/-- Example block of memory: at address 100, slot `i` holding `10 * i`. -/
def exampleBlock : Storage Nat := { addr := 100, slot := fun i => 10 * i }

/-- Example block the allocator hands back: at address 200, every slot holding 7. -/
def exampleFresh : Storage Nat := { addr := 200, slot := fun _ => 7 }

/-- Example array: capacity 2, count 2, in non-owning mode over `exampleBlock`. -/
def exampleFull : Array Nat :=
  { m_values := exampleBlock, m_count := 2, m_max := 2, m_cleanup := false }

/-- Example array: capacity 4, count 1, in non-owning mode over `exampleBlock`. -/
def exampleRoomy : Array Nat :=
  { m_values := exampleBlock, m_count := 1, m_max := 4, m_cleanup := false }

/-- Example array: capacity 2, count 0, in non-owning mode over `exampleBlock`. -/
def exampleEmpty : Array Nat :=
  { m_values := exampleBlock, m_count := 0, m_max := 2, m_cleanup := false }

/-- Example array: capacity 4, count 3, in owning mode, holding 0, 10, 20. -/
def exampleOwning : Array Nat :=
  { m_values := exampleBlock, m_count := 3, m_max := 4, m_cleanup := true }

/-- Example array: capacity 4, count 4, in non-owning mode over `exampleBlock`. -/
def exampleFullFour : Array Nat :=
  { m_values := exampleBlock, m_count := 4, m_max := 4, m_cleanup := false }

end Array

/-! ## Helpers of misc.h -/

/-- Addition of unsigned integers of `w` bits: wraps modulo `2^w`. -/
def wrapAdd (w a b : Nat) : Nat := (a + b) % 2 ^ w

/-- Subtraction of unsigned integers of `w` bits: `a - b` when `b ≤ a`, and the
wrapped value `a + 2^w - b` otherwise, reduced modulo `2^w`. -/
def wrapSub (w a b : Nat) : Nat := (if b ≤ a then a - b else a + 2 ^ w - b) % 2 ^ w

/-- Bitwise complement `~a` of an unsigned integer of `w` bits. -/
def wrapNot (w a : Nat) : Nat := 2 ^ w - 1 - a % 2 ^ w

/-- Left shift `a << k` of an unsigned integer of `w` bits. -/
def wrapShl (w a k : Nat) : Nat := (a <<< k) % 2 ^ w

/-- Source lines 113 to 117 of misc.h, `asMBInt`, on `uint64_t`. -/
def asMBInt (_dataSize : Nat) : Nat := _dataSize >>> 20

/-- Source lines 119 to 124 of misc.h, `asMBDec`, on `uint64_t`. -/
def asMBDec (_dataSize : Nat) : Nat :=
  let mb := asMBInt _dataSize
  (wrapSub 64 _dataSize (wrapShl 64 mb 20)) >>> 10

/-- Source lines 137 to 141 of misc.h, `align`, on `uint32_t`. -/
def align (_val _alignPwrTwo : Nat) : Nat :=
  let mask := wrapSub 32 _alignPwrTwo 1
  (wrapAdd 32 _val mask) &&& (wrapNot 32 mask)

/-- Source lines 166 to 170 of misc.h, `alignSizeNext`, on `size_t`; the number
of bits of `size_t` is fixed by the platform and is the parameter `bits`. -/
def alignSizeNext (bits : Nat) (_size _alignPwrTwo : Nat) : Nat :=
  let mask := wrapSub bits _alignPwrTwo 1
  (wrapAdd bits _size mask) &&& (wrapNot bits mask)

/-- The value `r` is the smallest multiple of `a` that is at least `v`: it is a
multiple of `a`, lies in `[v, v + a)`, is below every other such multiple, and
is `v` itself when `v` is a multiple of `a`. -/
def IsSmallestMultipleGE (a v r : Nat) : Prop :=
  a ∣ r ∧ v ≤ r ∧ r < v + a ∧ (∀ m, a ∣ m → v ≤ m → r ≤ m) ∧ (a ∣ v → r = v)

/-! ### Strings

A `char` is given by its code, and the memory a `char*` points into by the list
of the codes it holds; a pointer is an index into that list. A NUL-terminated
string at `p` is the run of codes from `p` up to the first 0. -/

/-- Modelled from the C standard: `isspace` of `<ctype.h>` in the "C" locale
(the library is not among the sources): space, and the codes 9 to 13 (tab,
newline, vertical tab, form feed, carriage return). -/
def isspace (c : Nat) : Bool := c == 32 || (9 ≤ c && c ≤ 13)

/-- Read `*p` for a pointer `p` at index `p` of the memory `buf`. -/
def charAt (buf : List Nat) (p : Int) : Nat :=
  if 0 ≤ p then buf.getD p.toNat 0 else 0

/-- The NUL-terminated string at index `p` of `buf`. -/
def cstringAt (buf : List Nat) (p : Nat) : List Nat :=
  (buf.drop p).takeWhile (fun c => c != 0)

/-- Modelled from the C standard: `strlen(p)`, the length of the string at `p`. -/
def strlen (buf : List Nat) (p : Nat) : Nat := (cstringAt buf p).length

/-- The first loop of `trim`, `while (isspace(*_str)) ++_str;`, run for at most
`fuel` iterations. -/
def trimSkipLoop (buf : List Nat) : Nat → Nat → Nat
  | 0, _str => _str
  | fuel + 1, _str =>
    if isspace (charAt buf _str) then trimSkipLoop buf fuel (_str + 1) else _str

/-- The second loop of `trim`, `while (isspace(*end--) && end > _str) {}`, run
for at most `fuel` iterations: the character at `end` is read, `end` is
decremented whatever the character is, and the loop goes on when the character
was a space and the decremented `end` is still above `_str`. -/
def trimEndLoop (buf : List Nat) (_str : Nat) : Nat → Int → Int
  | 0, e => e
  | fuel + 1, e =>
    let c := charAt buf e
    let e1 := e - 1
    if isspace c && decide ((_str : Int) < e1) then trimEndLoop buf _str fuel e1 else e1

/-- Source lines 287 to 313 of misc.h, `trim`: the pointer returned and the
memory after the call. Each loop reads one more character at each iteration,
so the length of `buf` is fuel enough for a NUL-terminated string. -/
def trim (buf : List Nat) (_str : Nat) : Nat × List Nat :=
  let _str := trimSkipLoop buf buf.length _str
  if charAt buf _str = 0 then
    (_str, buf)
  else
    let e0 : Int := (_str : Int) + (strlen buf _str : Int) - 1
    let e := trimEndLoop buf _str buf.length e0
    (_str, buf.set (e + 1).toNat 0)

/-- The string `trim` returns: the NUL-terminated string at the pointer returned,
in the memory after the call. -/
def trimmed (buf : List Nat) (_str : Nat) : List Nat :=
  cstringAt (trim buf _str).2 (trim buf _str).1

/-- What the claim expects of `trim`: the characters of the string with the
leading and the trailing white space removed. -/
def trimSpec (cs : List Nat) : List Nat :=
  ((cs.dropWhile isspace).reverse.dropWhile isspace).reverse

/-! ## Arithmetic helpers -/

theorem add32_le (a b : Nat) : add32 a b ≤ a + b := by
  unfold add32
  exact Nat.mod_le _ _

theorem add32_eq {a b : Nat} (h : a + b < 2 ^ 32) : add32 a b = a + b := by
  unfold add32
  exact Nat.mod_eq_of_lt h

theorem sub32_one_le {a : Nat} (h : 0 < a) : sub32 a 1 ≤ a - 1 := by
  unfold sub32
  rw [if_pos (by omega)]
  exact Nat.mod_le _ _

theorem sub32_eq {a b : Nat} (hb : b ≤ a) (ha : a < 2 ^ 32) : sub32 a b = a - b := by
  unfold sub32
  rw [if_pos hb]
  exact Nat.mod_eq_of_lt (by omega)

theorem max_ge_right (a b : Nat) : b ≤ dm.max a b := by
  unfold dm.max
  split <;> omega

namespace Array

variable {T : Type}

/-! ## The invariant `m_count ≤ m_max` -/

theorem resize_count_le (fresh : Storage T) (_max : Nat) (s : Array T) :
    (resize fresh _max s).m_count ≤ (resize fresh _max s).m_max := by
  simp only [resize]
  split <;> omega

theorem expand_spec (fresh : Storage T) (_count : Nat) (s : Array T)
    (h : s.m_count ≤ s.m_max) :
    (expandIfNecessaryToMakeRoomFor fresh _count s).m_count = s.m_count ∧
    add32 s.m_count _count ≤ (expandIfNecessaryToMakeRoomFor fresh _count s).m_max ∧
    s.m_max ≤ (expandIfNecessaryToMakeRoomFor fresh _count s).m_max := by
  unfold expandIfNecessaryToMakeRoomFor
  simp only
  split
  · rename_i hgt
    have h1 := max_ge_right (add32 s.m_max (s.m_max >>> 1)) (add32 s.m_count _count)
    simp only [resize]
    refine ⟨?_, h1, by omega⟩
    rw [if_neg (by omega)]
  · exact ⟨rfl, by omega, le_refl _⟩

theorem reserve_count_le (dyn : Bool) (fresh : Storage T) (_count : Nat) (s : Array T)
    (hdyn : dyn = true) (h : s.m_count ≤ s.m_max) :
    (reserve dyn fresh _count s).2.m_count ≤ (reserve dyn fresh _count s).2.m_max := by
  subst hdyn
  obtain ⟨h1, h2, _⟩ := expand_spec fresh _count s h
  simp only [reserve, if_true, max]
  split
  · simp only
    rw [h1]; exact h2
  · simp only
    omega

theorem add_state (dyn : Bool) (fresh : Storage T) (_value : T) (s : Array T) :
    (add dyn fresh _value s).2.m_count = (reserve dyn fresh 1 s).2.m_count ∧
    (add dyn fresh _value s).2.m_max = (reserve dyn fresh 1 s).2.m_max ∧
    (add dyn fresh _value s).2.m_cleanup = (reserve dyn fresh 1 s).2.m_cleanup := by
  unfold add
  split <;> rename_i heq <;> simp [heq]

theorem add_count_le (dyn : Bool) (fresh : Storage T) (_value : T) (s : Array T)
    (hdyn : dyn = true) (h : s.m_count ≤ s.m_max) :
    (add dyn fresh _value s).2.m_count ≤ (add dyn fresh _value s).2.m_max := by
  obtain ⟨h1, h2, _⟩ := add_state dyn fresh _value s
  rw [h1, h2]
  exact reserve_count_le dyn fresh 1 s hdyn h

theorem cut_count_le (_idx : Nat) (s : Array T) (h : s.m_count ≤ s.m_max) :
    (cut _idx s).2.m_count ≤ (cut _idx s).2.m_max := by
  unfold cut max
  split
  · simp only; omega
  · exact h

theorem remove_count_le (_idx : Nat) (s : Array T) (h : s.m_count ≤ s.m_max) :
    (remove _idx s).2.m_count ≤ (remove _idx s).2.m_max := by
  unfold remove max
  split
  · rename_i hc
    split
    · have := sub32_one_le hc.1
      simp only
      omega
    · exact h
  · exact h

theorem removeSwap_count_le (_idx : Nat) (s : Array T) (h : s.m_count ≤ s.m_max) :
    (removeSwap _idx s).2.m_count ≤ (removeSwap _idx s).2.m_max := by
  unfold removeSwap max
  split
  · rename_i hc
    split
    · have := sub32_one_le hc.1
      simp only
      omega
    · exact h
  · exact h

theorem pop_count_le (s : Array T) (h : s.m_count ≤ s.m_max) :
    (pop s).2.m_count ≤ (pop s).2.m_max := by
  unfold pop
  split
  · rename_i hc
    have := sub32_one_le hc
    simp only
    omega
  · exact h

/-! ## What `reserve` and `add` do, case by case -/

theorem reserve_of_room (dyn : Bool) (fresh : Storage T) (_count : Nat) (s : Array T)
    (h : s.m_count < s.m_max) (hn : s.m_count + _count ≤ s.m_max) (h32 : s.m_count + _count < 2 ^ 32) :
    reserve dyn fresh _count s = (.ok s.m_count, { s with m_count := s.m_count + _count }) := by
  have ha : add32 s.m_count _count = s.m_count + _count := add32_eq h32
  have he : expandIfNecessaryToMakeRoomFor fresh _count s = s := by
    unfold expandIfNecessaryToMakeRoomFor
    simp only [ha]
    rw [if_neg (by omega)]
  unfold reserve
  cases dyn <;> simp [he, max, h, ha]

theorem reserve_full (dyn : Bool) (fresh : Storage T) (_count : Nat) (s : Array T)
    (h : s.m_max ≤ s.m_count) (hn : add32 s.m_count _count ≤ s.m_max) :
    reserve dyn fresh _count s = (.error .CapacityExceeded, s) := by
  have he : expandIfNecessaryToMakeRoomFor fresh _count s = s := by
    unfold expandIfNecessaryToMakeRoomFor
    simp only
    rw [if_neg (by omega)]
  unfold reserve
  cases dyn <;> simp [he, max, h]

theorem reserve_static (fresh : Storage T) (_count : Nat) (s : Array T) :
    reserve false fresh _count s =
      if s.m_count < s.m_max then (.ok s.m_count, { s with m_count := add32 s.m_count _count })
      else (.error .CapacityExceeded, s) := by
  simp [reserve, max]

/-- The capacity `expandIfNecessaryToMakeRoomFor` asks `resize` for. -/
theorem reserve_grow (fresh : Storage T) (_count : Nat) (s : Array T)
    (hc : s.m_count ≤ s.m_max) (hn : s.m_max < s.m_count + _count) (h32 : s.m_count + _count < 2 ^ 32) :
    reserve true fresh _count s =
      (.ok s.m_count,
        { resize fresh (dm.max (add32 s.m_max (s.m_max >>> 1)) (s.m_count + _count)) s with
          m_count := s.m_count + _count }) := by
  have ha : add32 s.m_count _count = s.m_count + _count := add32_eq h32
  have hm := max_ge_right (add32 s.m_max (s.m_max >>> 1)) (s.m_count + _count)
  have he : expandIfNecessaryToMakeRoomFor fresh _count s =
      resize fresh (dm.max (add32 s.m_max (s.m_max >>> 1)) (s.m_count + _count)) s := by
    unfold expandIfNecessaryToMakeRoomFor
    simp only [ha]
    rw [if_pos (by omega)]
  have hcnt : (resize fresh (dm.max (add32 s.m_max (s.m_max >>> 1)) (s.m_count + _count)) s).m_count
      = s.m_count := by
    simp only [resize]
    rw [if_neg (by omega)]
  have hmax : (resize fresh (dm.max (add32 s.m_max (s.m_max >>> 1)) (s.m_count + _count)) s).m_max
      = dm.max (add32 s.m_max (s.m_max >>> 1)) (s.m_count + _count) := rfl
  unfold reserve
  simp only [if_true, he, max, hcnt, hmax, ha]
  rw [if_pos (by omega)]

theorem add_of_room (dyn : Bool) (fresh : Storage T) (_value : T) (s : Array T)
    (h : s.m_count < s.m_max) (h32 : s.m_count + 1 < 2 ^ 32) :
    add dyn fresh _value s =
      (.ok (), { s with m_values := s.m_values.write s.m_count _value, m_count := s.m_count + 1 }) := by
  unfold add
  rw [reserve_of_room dyn fresh 1 s h (by omega) h32]

theorem add_grow (fresh : Storage T) (_value : T) (s : Array T)
    (h : s.m_count = s.m_max) (h32 : s.m_count + 1 < 2 ^ 32) :
    add true fresh _value s =
      (.ok (),
        { resize fresh (dm.max (add32 s.m_max (s.m_max >>> 1)) (s.m_count + 1)) s with
          m_values :=
            (resize fresh (dm.max (add32 s.m_max (s.m_max >>> 1)) (s.m_count + 1)) s).m_values.write
              s.m_count _value
          m_count := s.m_count + 1 }) := by
  unfold add
  rw [reserve_grow fresh 1 s (by omega) (by omega) h32]

theorem add_static_full (fresh : Storage T) (_value : T) (s : Array T)
    (h : s.m_max ≤ s.m_count) :
    add false fresh _value s = (.error .CapacityExceeded, s) := by
  unfold add
  rw [reserve_static, if_neg (by omega)]

/-! ## Sequences of `add` -/

theorem addAll_of_room (dyn : Bool) (vs : List T) :
    ∀ (fresh : Nat → Storage T) (s : Array T),
      s.m_count + vs.length ≤ s.m_max → s.m_count + vs.length < 2 ^ 32 →
      (addAll dyn fresh vs s).1 = .ok () ∧
      (addAll dyn fresh vs s).2.m_count = s.m_count + vs.length ∧
      (addAll dyn fresh vs s).2.m_max = s.m_max ∧
      (addAll dyn fresh vs s).2.m_cleanup = s.m_cleanup ∧
      (addAll dyn fresh vs s).2.m_values.addr = s.m_values.addr ∧
      (∀ i v, vs[i]? = some v → (addAll dyn fresh vs s).2.m_values.slot (s.m_count + i) = v) ∧
      (∀ i, i < s.m_count → (addAll dyn fresh vs s).2.m_values.slot i = s.m_values.slot i) := by
  induction vs with
  | nil =>
    intro fresh s _ _
    simp [addAll]
  | cons v vs ih =>
    intro fresh s h h32
    simp only [List.length_cons] at h h32
    have hstep := add_of_room dyn (fresh 0) v s (by omega) (by omega)
    obtain ⟨h1, h2, h3, h4, h5, h6, h7⟩ := ih (fun k => fresh (k + 1))
      { s with m_values := s.m_values.write s.m_count v, m_count := s.m_count + 1 }
      (by simp only; omega) (by simp only; omega)
    simp only [addAll, hstep]
    simp only at h2 h3 h4 h5 h6 h7
    refine ⟨h1, ?_, h3, h4, ?_, ?_, ?_⟩
    · rw [h2, List.length_cons]; omega
    · rw [h5]; rfl
    · intro i w hi
      cases i with
      | zero =>
        simp only [List.getElem?_cons_zero, Option.some.injEq] at hi
        have h0 := h7 s.m_count (by omega)
        rw [← hi]
        simpa [Storage.write] using h0
      | succ j =>
        simp only [List.getElem?_cons_succ] at hi
        have := h6 j w hi
        rw [show s.m_count + (j + 1) = s.m_count + 1 + j by omega]
        exact this
    · intro i hi
      rw [h7 i (by omega)]
      simp only [Storage.write]
      rw [if_neg (by omega)]

theorem add_owning (fresh : Storage T) (v : T) (s : Array T)
    (hown : s.m_cleanup = true) (hinv : s.m_count ≤ s.m_max) (h32 : s.m_count + 1 < 2 ^ 32) :
    (add true fresh v s).1 = .ok () ∧
    (add true fresh v s).2.m_count = s.m_count + 1 ∧
    (add true fresh v s).2.m_count ≤ (add true fresh v s).2.m_max ∧
    (add true fresh v s).2.m_cleanup = true ∧
    (add true fresh v s).2.m_values.slot s.m_count = v ∧
    (∀ i, i < s.m_count → (add true fresh v s).2.m_values.slot i = s.m_values.slot i) := by
  by_cases hroom : s.m_count < s.m_max
  · rw [add_of_room true fresh v s hroom h32]
    refine ⟨rfl, rfl, by simp only; omega, hown, by simp [Storage.write], ?_⟩
    intro i hi
    simp only [Storage.write]
    rw [if_neg (by omega)]
  · have hfull : s.m_count = s.m_max := by omega
    have hm := max_ge_right (add32 s.m_max (s.m_max >>> 1)) (s.m_count + 1)
    rw [add_grow fresh v s hfull h32]
    refine ⟨rfl, rfl, by simp only [resize]; omega, by simp only [resize]; exact hown,
      by simp [Storage.write], ?_⟩
    intro i hi
    simp only [Storage.write, resize, hown, if_true, BX_REALLOC]
    rw [if_neg (by omega), if_pos (by simp only [lt_min_iff]; omega)]

theorem addAll_owning (vs : List T) :
    ∀ (fresh : Nat → Storage T) (s : Array T),
      s.m_cleanup = true → s.m_count ≤ s.m_max → s.m_count + vs.length < 2 ^ 32 →
      (addAll true fresh vs s).1 = .ok () ∧
      (addAll true fresh vs s).2.m_count = s.m_count + vs.length ∧
      (addAll true fresh vs s).2.m_count ≤ (addAll true fresh vs s).2.m_max ∧
      (addAll true fresh vs s).2.m_cleanup = true ∧
      (∀ i v, vs[i]? = some v → (addAll true fresh vs s).2.m_values.slot (s.m_count + i) = v) ∧
      (∀ i, i < s.m_count → (addAll true fresh vs s).2.m_values.slot i = s.m_values.slot i) := by
  induction vs with
  | nil =>
    intro fresh s hown hinv _
    simp [addAll, hown, hinv]
  | cons v vs ih =>
    intro fresh s hown hinv h32
    simp only [List.length_cons] at h32
    obtain ⟨a1, a2, a3, a4, a5, a6⟩ := add_owning (fresh 0) v s hown hinv (by omega)
    have hstep : add true (fresh 0) v s = (.ok (), (add true (fresh 0) v s).2) := by
      rw [← a1]
    obtain ⟨h1, h2, h3, h4, h5, h6⟩ := ih (fun k => fresh (k + 1)) (add true (fresh 0) v s).2
      a4 a3 (by rw [a2]; omega)
    have hunf : addAll true fresh (v :: vs) s
        = addAll true (fun k => fresh (k + 1)) vs (add true (fresh 0) v s).2 := by
      rw [addAll, hstep]
    rw [hunf]
    refine ⟨h1, ?_, h3, h4, ?_, ?_⟩
    · rw [h2, a2, List.length_cons]; omega
    · intro i w hi
      cases i with
      | zero =>
        simp only [List.getElem?_cons_zero, Option.some.injEq] at hi
        have h0 := h6 s.m_count (by rw [a2]; omega)
        rw [← hi]
        simpa [a5] using h0
      | succ j =>
        simp only [List.getElem?_cons_succ] at hi
        have := h5 j w hi
        rw [a2] at this
        rw [show s.m_count + (j + 1) = s.m_count + 1 + j by omega]
        exact this
    · intro i hi
      rw [h6 i (by rw [a2]; omega)]
      exact a6 i hi

/-! ## `reserve` in owning mode, and writing through the pointer it returns -/

theorem reserve_owning (fresh : Storage T) (k : Nat) (s : Array T)
    (hown : s.m_cleanup = true) (hinv : s.m_count ≤ s.m_max) (h32 : s.m_count + k < 2 ^ 32)
    (hk : 1 ≤ k ∨ s.m_count < s.m_max) :
    (reserve true fresh k s).1 = .ok s.m_count ∧
    (reserve true fresh k s).2.m_count = s.m_count + k ∧
    (reserve true fresh k s).2.m_count ≤ (reserve true fresh k s).2.m_max ∧
    (∀ i, i < s.m_count → (reserve true fresh k s).2.m_values.slot i = s.m_values.slot i) := by
  by_cases hroom : s.m_count + k ≤ s.m_max
  · rw [reserve_of_room true fresh k s (by omega) hroom h32]
    exact ⟨rfl, rfl, hroom, fun _ _ => rfl⟩
  · have hm := max_ge_right (add32 s.m_max (s.m_max >>> 1)) (s.m_count + k)
    rw [reserve_grow fresh k s hinv (by omega) h32]
    refine ⟨rfl, rfl, by simp only [resize]; omega, ?_⟩
    intro i hi
    simp only [resize, hown, if_true, BX_REALLOC]
    rw [if_pos (by simp only [lt_min_iff]; omega)]

theorem writeSlots_spec (vs : List T) :
    ∀ (curr : Nat) (s : Array T),
      (writeSlots vs curr s).m_count = s.m_count ∧
      (writeSlots vs curr s).m_max = s.m_max ∧
      (∀ j v, vs[j]? = some v → (writeSlots vs curr s).m_values.slot (curr + j) = v) ∧
      (∀ i, i < curr → (writeSlots vs curr s).m_values.slot i = s.m_values.slot i) := by
  induction vs with
  | nil =>
    intro curr s
    simp [writeSlots]
  | cons w vs ih =>
    intro curr s
    obtain ⟨h1, h2, h3, h4⟩ := ih (curr + 1) { s with m_values := s.m_values.write curr w }
    simp only [writeSlots]
    refine ⟨h1, h2, ?_, ?_⟩
    · intro j v hj
      cases j with
      | zero =>
        simp only [List.getElem?_cons_zero, Option.some.injEq] at hj
        have h0 := h4 curr (by omega)
        rw [← hj]
        simpa [Storage.write] using h0
      | succ j =>
        simp only [List.getElem?_cons_succ] at hj
        have := h3 j v hj
        rw [show curr + (j + 1) = curr + 1 + j by omega]
        exact this
    · intro i hi
      rw [h4 i (by omega)]
      simp only [Storage.write]
      rw [if_neg (by omega)]

/-! ## Logical contents, `remove`, `removeSwap`, `pop` -/

theorem contents_length (s : Array T) : (contents s).length = s.m_count := by
  simp [contents]

theorem contents_getElem? (s : Array T) (n : Nat) :
    (contents s)[n]? = if n < s.m_count then some (s.m_values.slot n) else none := by
  unfold contents
  rw [List.getElem?_map]
  split
  · rename_i h
    rw [List.getElem?_range h]
    rfl
  · rename_i h
    rw [List.getElem?_eq_none (by simp only [List.length_range]; omega)]
    rfl

theorem remove_ok (_idx : Nat) (s : Array T)
    (hinv : s.m_count ≤ s.m_max) (h32 : s.m_count < 2 ^ 32) (hi : _idx < s.m_count) :
    remove _idx s =
      (.ok (s.m_values.slot _idx),
        { s with
          m_values := s.m_values.memmove _idx (_idx + 1) (s.m_count - _idx - 1)
          m_count := s.m_count - 1 }) := by
  have e1 : removeMoveLen _idx s = s.m_count - _idx - 1 := by
    have inner : sub32 s.m_count _idx = s.m_count - _idx := sub32_eq (by omega) (by omega)
    unfold removeMoveLen
    rw [inner, sub32_eq (by omega) (by omega)]
  have e2 : add32 _idx 1 = _idx + 1 := add32_eq (by omega)
  have e3 : sub32 s.m_count 1 = s.m_count - 1 := sub32_eq (by omega) (by omega)
  unfold remove max
  rw [if_pos ⟨by omega, hinv⟩, if_pos (by omega)]
  simp only [e1, e2, e3]

theorem removeSwap_ok (_idx : Nat) (s : Array T)
    (hinv : s.m_count ≤ s.m_max) (h32 : s.m_count < 2 ^ 32) (hi : _idx < s.m_count) :
    removeSwap _idx s =
      (.ok (s.m_values.slot _idx),
        { s with
          m_values := s.m_values.write _idx (s.m_values.slot (s.m_count - 1))
          m_count := s.m_count - 1 }) := by
  have e3 : sub32 s.m_count 1 = s.m_count - 1 := sub32_eq (by omega) (by omega)
  unfold removeSwap max
  rw [if_pos ⟨by omega, hinv⟩, if_pos (by omega)]
  simp only [e3]

theorem pop_ok (s : Array T) (hpos : 0 < s.m_count) (h32 : s.m_count < 2 ^ 32) :
    pop s = (.ok (s.m_values.slot (s.m_count - 1)), { s with m_count := s.m_count - 1 }) := by
  have e3 : sub32 s.m_count 1 = s.m_count - 1 := sub32_eq (by omega) (by omega)
  unfold pop
  rw [if_pos hpos]
  simp only [e3]

theorem popN_spec (n : Nat) :
    ∀ (s : Array T), n ≤ s.m_count → s.m_count < 2 ^ 32 →
      popN n s =
        (.ok ((List.range n).map (fun k => s.m_values.slot (s.m_count - 1 - k))),
          { s with m_count := s.m_count - n }) := by
  induction n with
  | zero =>
    intro s _ _
    simp [popN]
  | succ n ih =>
    intro s hn h32
    have hp := pop_ok s (by omega) h32
    have hrec := ih { s with m_count := s.m_count - 1 } (by simp only; omega) (by simp only; omega)
    simp only [popN, hp, hrec]
    refine Prod.ext ?_ ?_
    · simp only
      congr 1
      rw [List.range_succ_eq_map, List.map_cons, List.map_map]
      congr 1
      apply List.map_congr_left
      intro k _
      simp only [Function.comp_apply]
      congr 1
      omega
    · simp only
      congr 1
      omega

theorem addAll_popN (fresh : Nat → Storage T) (s : Array T) (vs : List T)
    (hown : s.m_cleanup = true) (hinv : s.m_count ≤ s.m_max)
    (h32 : s.m_count + vs.length < 2 ^ 32) :
    (addAll true fresh vs s).1 = .ok () ∧
    (popN vs.length (addAll true fresh vs s).2).1 = .ok vs.reverse ∧
    (popN vs.length (addAll true fresh vs s).2).2.m_count = s.m_count ∧
    (∀ i, i < s.m_count →
      (popN vs.length (addAll true fresh vs s).2).2.m_values.slot i = s.m_values.slot i) := by
  obtain ⟨h1, h2, _, _, h5, h6⟩ := addAll_owning vs fresh s hown hinv h32
  rw [popN_spec vs.length _ (by rw [h2]; omega) (by rw [h2]; omega)]
  refine ⟨h1, ?_, by simp only [h2]; omega, fun i hi => h6 i hi⟩
  simp only
  congr 1
  apply List.ext_getElem?
  intro k
  rw [List.getElem?_map]
  by_cases hk : k < vs.length
  · rw [List.getElem?_range hk, List.getElem?_reverse hk]
    have hidx : vs.length - 1 - k < vs.length := by omega
    have hv := h5 (vs.length - 1 - k) (vs[vs.length - 1 - k]) (List.getElem?_eq_getElem hidx)
    rw [List.getElem?_eq_getElem hidx]
    simp only [Option.map_some', Option.some.injEq]
    rw [← hv, h2]
    congr 1
    omega
  · rw [List.getElem?_eq_none (by simp only [List.length_range]; omega),
      List.getElem?_eq_none (by simp only [List.length_reverse]; omega)]
    rfl

/-! ## Counting reallocations -/

theorem expandResizeCalls_le_one (_count : Nat) (s : Array T) :
    expandResizeCalls _count s ≤ 1 := by
  unfold expandResizeCalls
  split <;> omega

theorem add_ok_or_full (fresh : Storage T) (v : T) (s : Array T)
    (hinv : s.m_count ≤ s.m_max) (hm : s.m_max < 2 ^ 32) :
    ((add true fresh v s).1 = .ok () ∧
      (add true fresh v s).2.m_count = s.m_count + 1 ∧
      (add true fresh v s).2.m_count ≤ (add true fresh v s).2.m_max ∧
      (add true fresh v s).2.m_max < 2 ^ 32) ∨
    (expandResizeCalls 1 s = 0 ∧ add true fresh v s = (.error .CapacityExceeded, s)) := by
  have hcle := add_count_le true fresh v s rfl hinv
  by_cases hwrap : s.m_count + 1 < 2 ^ 32
  · by_cases hroom : s.m_count < s.m_max
    · rw [add_of_room true fresh v s hroom hwrap] at hcle ⊢
      exact Or.inl ⟨rfl, rfl, hcle, hm⟩
    · have hfull : s.m_count = s.m_max := by omega
      rw [add_grow fresh v s hfull hwrap] at hcle ⊢
      refine Or.inl ⟨rfl, rfl, hcle, ?_⟩
      simp only [resize]
      have h1 : add32 s.m_max (s.m_max >>> 1) < 2 ^ 32 := by
        unfold add32
        exact Nat.mod_lt _ (by norm_num)
      unfold dm.max
      split <;> omega
  · have hz : add32 s.m_count 1 = 0 := by
      unfold add32
      have : s.m_count + 1 = 2 ^ 32 := by omega
      rw [this]
      exact Nat.mod_self _
    right
    refine ⟨by unfold expandResizeCalls; rw [hz, if_neg (by omega)], ?_⟩
    unfold add
    rw [reserve_full true fresh 1 s (by omega) (by rw [hz]; omega)]

theorem addAll_resize_le_count (vs : List T) :
    ∀ (fresh : Nat → Storage T) (s : Array T),
      s.m_count ≤ s.m_max → s.m_max < 2 ^ 32 →
      addAllResizeCalls fresh vs s + s.m_count ≤ (addAll true fresh vs s).2.m_count ∧
      (addAll true fresh vs s).2.m_count ≤ (addAll true fresh vs s).2.m_max ∧
      (addAll true fresh vs s).2.m_max < 2 ^ 32 := by
  induction vs with
  | nil =>
    intro fresh s hinv hm
    simp only [addAll, addAllResizeCalls, Nat.zero_add]
    exact ⟨Nat.le_refl _, hinv, hm⟩
  | cons v vs ih =>
    intro fresh s hinv hm
    have hone := expandResizeCalls_le_one 1 s
    rcases add_ok_or_full (fresh 0) v s hinv hm with ⟨a1, a2, a3, a4⟩ | ⟨hz, herr⟩
    · have hstep : add true (fresh 0) v s = (.ok (), (add true (fresh 0) v s).2) := by
        rw [← a1]
      have hunf : addAll true fresh (v :: vs) s
          = addAll true (fun k => fresh (k + 1)) vs (add true (fresh 0) v s).2 := by
        rw [addAll, hstep]
      have hcnt : addAllResizeCalls fresh (v :: vs) s
          = expandResizeCalls 1 s
            + addAllResizeCalls (fun k => fresh (k + 1)) vs (add true (fresh 0) v s).2 := by
        rw [addAllResizeCalls, hstep]
      obtain ⟨h1, h2, h3⟩ := ih (fun k => fresh (k + 1)) (add true (fresh 0) v s).2 a3 a4
      rw [hunf, hcnt]
      refine ⟨?_, h2, h3⟩
      rw [a2] at h1
      omega
    · simp only [addAll, addAllResizeCalls, herr, hz]
      exact ⟨by omega, hinv, hm⟩

/-- Once `capacity + capacity/2` no longer fits in 32 bits, the proposed capacity
wraps to a value below the capacity, the array grows by one slot only, and is
full again: every `add` in that range calls `resize`. -/
theorem add_resizes_when_wrapped (fresh : Storage T) (v : T) (s : Array T)
    (hfull : s.m_count = s.m_max) (h32 : s.m_count + 1 < 2 ^ 32)
    (hwrap : 2 ^ 32 ≤ s.m_max + s.m_max / 2) :
    expandResizeCalls 1 s = 1 ∧
    (add true fresh v s).1 = .ok () ∧
    (add true fresh v s).2.m_count = s.m_count + 1 ∧
    (add true fresh v s).2.m_max = s.m_count + 1 := by
  have ha : add32 s.m_count 1 = s.m_count + 1 := add32_eq h32
  have hshift : s.m_max >>> 1 = s.m_max / 2 := by
    rw [Nat.shiftRight_eq_div_pow, pow_one]
  have hb : add32 s.m_max (s.m_max >>> 1) ≤ s.m_max := by
    rw [hshift]
    unfold add32
    omega
  have hm : dm.max (add32 s.m_max (s.m_max >>> 1)) (s.m_count + 1) = s.m_count + 1 := by
    unfold dm.max
    rw [if_neg (by omega)]
  rw [add_grow fresh v s hfull h32, hm]
  refine ⟨?_, rfl, rfl, rfl⟩
  unfold expandResizeCalls
  rw [ha, if_pos (by omega)]

/-! ## The length `remove` hands to `memmove` -/

theorem removeMoveLen_inside (_idx : Nat) (s : Array T)
    (h32 : s.m_count < 2 ^ 32) (hi : _idx < s.m_count) :
    _idx + 1 + removeMoveLen _idx s = s.m_count := by
  have inner : sub32 s.m_count _idx = s.m_count - _idx := sub32_eq (by omega) h32
  unfold removeMoveLen
  rw [inner, sub32_eq (by omega) (by omega)]
  omega

theorem removeMoveLen_wrapped (_idx : Nat) (s : Array T)
    (h32 : _idx < 2 ^ 32) (hi : s.m_count ≤ _idx) :
    _idx + 1 + removeMoveLen _idx s = 2 ^ 32 + s.m_count := by
  unfold removeMoveLen sub32
  split <;> split <;> omega

/-! ## The capacity the growth step asks for -/

theorem max_eq_natMax (a b : Nat) : dm.max a b = Nat.max a b := by
  unfold dm.max
  simp only [Nat.max_def]
  split <;> split <;> omega

theorem proposedMax_eq {c : Nat} (h : c + c / 2 < 2 ^ 32) : add32 c (c >>> 1) = c + c / 2 := by
  rw [Nat.shiftRight_eq_div_pow, pow_one]
  exact add32_eq h

/-! ## The invariant in the configuration without `DM_DYNAMIC_ARRAY` -/

theorem add_count_le_fixed (fresh : Storage T) (_value : T) (s : Array T)
    (h : s.m_count ≤ s.m_max) :
    (add false fresh _value s).2.m_count ≤ (add false fresh _value s).2.m_max := by
  obtain ⟨h1, h2, _⟩ := add_state false fresh _value s
  rw [h1, h2, reserve_static]
  have := add32_le s.m_count 1
  split
  · simp only
    omega
  · exact h

/-- In the configuration without `DM_DYNAMIC_ARRAY` every operation other than
`reserve` keeps `m_count ≤ m_max`. -/
theorem count_le_capacity_preserved_fixed [Zero T] (fresh : Storage T) (op : Op T) (s : Array T)
    (hop : ∀ n, op ≠ Op.reserve n) (h : s.m_count ≤ s.m_max) :
    (op.run false fresh s).m_count ≤ (op.run false fresh s).m_max := by
  cases op with
  | resize _max => exact resize_count_le fresh _max s
  | shrink => exact resize_count_le fresh s.m_count s
  | reserve _count => exact absurd rfl (hop _count)
  | add _value => exact add_count_le_fixed fresh _value s h
  | cut _idx => exact cut_count_le _idx s h
  | remove _idx => exact remove_count_le _idx s h
  | removeSwap _idx => exact removeSwap_count_le _idx s h
  | pop => exact pop_count_le s h
  | zero => exact h
  | fillWith _value => exact h
  | reset => exact Nat.zero_le _

/-- In the configuration with `DM_DYNAMIC_ARRAY`, from every state with
`m_count ≤ m_max`, whatever the value of `m_cleanup`, every operation with any
arguments leaves a state with `m_count ≤ m_max`, whether its check passed or
failed. -/
theorem count_le_capacity_preserved_dynamic [Zero T] (fresh : Storage T) (op : Op T)
    (s : Array T) (h : s.m_count ≤ s.m_max) :
    (op.run true fresh s).m_count ≤ (op.run true fresh s).m_max := by
  cases op with
  | resize _max => exact resize_count_le fresh _max s
  | shrink => exact resize_count_le fresh s.m_count s
  | reserve _count => exact reserve_count_le true fresh _count s rfl h
  | add _value => exact add_count_le true fresh _value s rfl h
  | cut _idx => exact cut_count_le _idx s h
  | remove _idx => exact remove_count_le _idx s h
  | removeSwap _idx => exact removeSwap_count_le _idx s h
  | pop => exact pop_count_le s h
  | zero => exact h
  | fillWith _value => exact h
  | reset => exact Nat.zero_le _

/-! ## The run of `add` from the empty array, phase by phase -/

/-- C1 fails on the code: in the configuration without `DM_DYNAMIC_ARRAY`, where
`reserve` skips the growth step, `reserve(5)` on an array with count 1 and
capacity 4 passes its only check, `m_count < max()`, succeeds and leaves count
6 above the capacity 4. The same happens for every array with
`count < capacity` and every `n` with `capacity < count + n < 2^32`: the check
does not look at `n`. -/
theorem C1_reserve_leaves_count_above_capacity :
    (exampleRoomy.m_count ≤ exampleRoomy.m_max ∧
      (reserve false exampleFresh 5 exampleRoomy).1 = .ok 1 ∧
      (reserve false exampleFresh 5 exampleRoomy).2.m_count = 6 ∧
      (reserve false exampleFresh 5 exampleRoomy).2.m_max = 4 ∧
      ((Op.reserve 5).run false exampleFresh exampleRoomy).m_max
        < ((Op.reserve 5).run false exampleFresh exampleRoomy).m_count) ∧
    (∀ (fresh : Storage T) (n : Nat) (s : Array T),
      s.m_count < s.m_max → s.m_max < s.m_count + n → s.m_count + n < 2 ^ 32 →
      (reserve false fresh n s).1 = .ok s.m_count ∧
      (reserve false fresh n s).2.m_max < (reserve false fresh n s).2.m_count) := by
  refine ⟨⟨by decide, rfl, rfl, rfl, by decide⟩, ?_⟩
  intro fresh n s hlt hgt h32
  rw [reserve_static, if_pos hlt, add32_eq h32]
  exact ⟨rfl, hgt⟩

/-- C2 fails as stated: over a caller buffer of capacity 1 (non-owning mode)
the first `add` succeeds and the second `add` succeeds too, leaving count 2 and
capacity 2 in a block newly obtained from the allocator (address 200, not the
caller's 100). -/
theorem C2_counterexample :
    (add true exampleFresh 5 (overBuffer exampleBlock 1)).1 = .ok () ∧
    (add true exampleFresh 6 (add true exampleFresh 5 (overBuffer exampleBlock 1)).2).1 = .ok () ∧
    (add true exampleFresh 6 (add true exampleFresh 5 (overBuffer exampleBlock 1)).2).2.m_count = 2 ∧
    (add true exampleFresh 6 (add true exampleFresh 5 (overBuffer exampleBlock 1)).2).2.m_max = 2 ∧
    (add true exampleFresh 6 (add true exampleFresh 5 (overBuffer exampleBlock 1)).2).2.m_values.addr = 200 :=
  ⟨rfl, rfl, rfl, rfl, rfl⟩

/-- C2, amended: for every capacity `C` with `C + 1 < 2^32` and every array
constructed in non-owning mode over a buffer of `C` elements, the first `C`
calls of `add` succeed without reallocation (count `C`, capacity `C`, storage
still the caller's buffer, holding the values added); the call after them does
not fail: it grows the array, so that count is `C + 1`, the capacity is at
least `C + 1`, and is `max(C + C/2, C + 1)` whenever `C + C/2 < 2^32`, and the
storage reference is the block newly obtained from the allocator. In the
configuration without `DM_DYNAMIC_ARRAY` (fixed
capacity) the call after the first `C` fails with `CapacityExceeded` and
leaves count `C` and capacity `C`. -/
theorem C2_add_past_capacity (C : Nat) (hC : C + 1 < 2 ^ 32) (bufferRef : Storage T)
    (fresh : Nat → Storage T) (vs : List T) (v : T) (hlen : vs.length = C) :
    ((addAll true fresh vs (overBuffer bufferRef C)).1 = .ok () ∧
      (addAll true fresh vs (overBuffer bufferRef C)).2.m_count = C ∧
      (addAll true fresh vs (overBuffer bufferRef C)).2.m_max = C ∧
      (addAll true fresh vs (overBuffer bufferRef C)).2.m_values.addr = bufferRef.addr ∧
      (∀ i w, vs[i]? = some w →
        (addAll true fresh vs (overBuffer bufferRef C)).2.m_values.slot i = w)) ∧
    ((add true (fresh C) v (addAll true fresh vs (overBuffer bufferRef C)).2).1 = .ok () ∧
      (add true (fresh C) v (addAll true fresh vs (overBuffer bufferRef C)).2).2.m_count = C + 1 ∧
      C + 1 ≤ (add true (fresh C) v (addAll true fresh vs (overBuffer bufferRef C)).2).2.m_max ∧
      (C + C / 2 < 2 ^ 32 →
        (add true (fresh C) v (addAll true fresh vs (overBuffer bufferRef C)).2).2.m_max
          = Nat.max (C + C / 2) (C + 1)) ∧
      (add true (fresh C) v (addAll true fresh vs (overBuffer bufferRef C)).2).2.m_values.addr
        = (fresh C).addr) ∧
    ((addAll false fresh vs (overBuffer bufferRef C)).1 = .ok () ∧
      (addAll false fresh vs (overBuffer bufferRef C)).2.m_count = C ∧
      (addAll false fresh vs (overBuffer bufferRef C)).2.m_max = C ∧
      add false (fresh C) v (addAll false fresh vs (overBuffer bufferRef C)).2
        = (.error .CapacityExceeded, (addAll false fresh vs (overBuffer bufferRef C)).2)) := by
  have hroom : ∀ dyn : Bool,
      (addAll dyn fresh vs (overBuffer bufferRef C)).1 = .ok () ∧
      (addAll dyn fresh vs (overBuffer bufferRef C)).2.m_count = C ∧
      (addAll dyn fresh vs (overBuffer bufferRef C)).2.m_max = C ∧
      (addAll dyn fresh vs (overBuffer bufferRef C)).2.m_cleanup = false ∧
      (addAll dyn fresh vs (overBuffer bufferRef C)).2.m_values.addr = bufferRef.addr ∧
      (∀ i w, vs[i]? = some w →
        (addAll dyn fresh vs (overBuffer bufferRef C)).2.m_values.slot i = w) := by
    intro dyn
    have e1 : (overBuffer bufferRef C).m_count = 0 := rfl
    have e2 : (overBuffer bufferRef C).m_max = C := rfl
    obtain ⟨h1, h2, h3, h4, h5, h6, _⟩ := addAll_of_room dyn vs fresh (overBuffer bufferRef C)
      (by rw [e1, e2]; omega) (by rw [e1]; omega)
    rw [e1] at h2 h6
    refine ⟨h1, by omega, h3, h4, h5, ?_⟩
    intro i w hi
    have := h6 i w hi
    rwa [Nat.zero_add] at this
  obtain ⟨d1, d2, d3, d4, d5, d6⟩ := hroom true
  obtain ⟨f1, f2, f3, _, _, _⟩ := hroom false
  refine ⟨⟨d1, d2, d3, d5, d6⟩, ?_, ⟨f1, f2, f3, ?_⟩⟩
  · rw [add_grow (fresh C) v _ (by omega) (by omega)]
    simp only [resize, d2, d3, d4, Bool.false_eq_true, if_false, BX_ALLOC, Storage.write, true_and]
    have hge := max_ge_right (add32 C (C >>> 1)) (C + 1)
    refine ⟨hge, ?_, ?_⟩
    · intro hsmall
      rw [proposedMax_eq hsmall, max_eq_natMax]
    · rw [if_pos (by omega)]
  · exact add_static_full (fresh C) v _ (by omega)

/-- Witness of C2: capacity 4, the values 5, 6, 7, 8, then 9: the capacity
becomes 6. -/
theorem C2_add_past_capacity_witness :
    4 + 1 < 2 ^ 32 ∧ [5, 6, 7, 8].length = 4 ∧ 4 + 4 / 2 < 2 ^ 32 ∧
    (add true exampleFresh 9
      (addAll true (fun _ => exampleFresh) [5, 6, 7, 8] (overBuffer exampleBlock 4)).2).1 = .ok () ∧
    (add true exampleFresh 9
      (addAll true (fun _ => exampleFresh) [5, 6, 7, 8] (overBuffer exampleBlock 4)).2).2.m_max
      = Nat.max (4 + 4 / 2) (4 + 1) ∧
    (add true exampleFresh 9
      (addAll true (fun _ => exampleFresh) [5, 6, 7, 8] (overBuffer exampleBlock 4)).2).2.m_max = 6 ∧
    add false exampleFresh 9
        (addAll false (fun _ => exampleFresh) [5, 6, 7, 8] (overBuffer exampleBlock 4)).2
      = (.error .CapacityExceeded,
          (addAll false (fun _ => exampleFresh) [5, 6, 7, 8] (overBuffer exampleBlock 4)).2) :=
  ⟨by norm_num, rfl, by norm_num,
    (C2_add_past_capacity 4 (by norm_num) exampleBlock (fun _ => exampleFresh) [5, 6, 7, 8] 9
      rfl).2.1.1,
    (C2_add_past_capacity 4 (by norm_num) exampleBlock (fun _ => exampleFresh) [5, 6, 7, 8] 9
      rfl).2.1.2.2.2.1 (by norm_num),
    rfl,
    (C2_add_past_capacity 4 (by norm_num) exampleBlock (fun _ => exampleFresh) [5, 6, 7, 8] 9
      rfl).2.2.2.2.2⟩

/-- C3 fails as stated: on a non-owning array with count 2 and capacity 2,
`reserve(3)` has `count + n > capacity` and yet succeeds, with count 5 and
capacity 5 in a newly allocated block; and `reserve(0)` has
`count + n ≤ capacity` and yet fails. In the configuration without
`DM_DYNAMIC_ARRAY`, `reserve(5)` on count 1 and capacity 4 succeeds as well and
leaves count 6. -/
theorem C3_counterexample :
    exampleFull.m_cleanup = false ∧ exampleFull.m_count + 3 > exampleFull.m_max ∧
    (reserve true exampleFresh 3 exampleFull).1 = .ok 2 ∧
    (reserve true exampleFresh 3 exampleFull).2.m_count = 5 ∧
    (reserve true exampleFresh 3 exampleFull).2.m_max = 5 ∧
    (reserve true exampleFresh 3 exampleFull).2.m_values.addr = 200 ∧
    (reserve true exampleFresh 0 exampleFull).1 = .error .CapacityExceeded ∧
    (reserve false exampleFresh 5 exampleRoomy).1 = .ok 1 ∧
    (reserve false exampleFresh 5 exampleRoomy).2.m_count = 6 ∧
    (reserve false exampleFresh 5 exampleRoomy).2.m_max = 4 :=
  ⟨rfl, by decide, rfl, rfl, rfl, rfl, rfl, rfl, rfl, rfl⟩

/-- C3, amended: for every array in non-owning mode with `count ≤ capacity` and
every `n` with `count + n < 2^32`, `reserve(n)` fails (with `CapacityExceeded`)
only when `n = 0` and `count = capacity`, and then leaves the array as it was;
in every other case it succeeds, returns the position of the old count and
advances count by exactly `n`: with `count + n ≤ capacity` nothing else
changes, and with `count + n > capacity` the capacity becomes at least
`count + n`, and is `max(capacity + capacity/2, count + n)` whenever
`capacity + capacity/2 < 2^32`, and the storage reference is the block newly
obtained from the allocator. In the configuration without
`DM_DYNAMIC_ARRAY` (fixed capacity) `reserve(n)` fails with `CapacityExceeded`
when `count = capacity`, leaving the array as it was, and succeeds as above
when `count < capacity` and `count + n ≤ capacity`. -/
theorem C3_reserve_nonowning (fresh : Storage T) (n : Nat) (s : Array T)
    (hmode : s.m_cleanup = false) (hinv : s.m_count ≤ s.m_max) (h32 : s.m_count + n < 2 ^ 32) :
    (n = 0 ∧ s.m_count = s.m_max → reserve true fresh n s = (.error .CapacityExceeded, s)) ∧
    (s.m_count < s.m_max ∧ s.m_count + n ≤ s.m_max →
      reserve true fresh n s = (.ok s.m_count, { s with m_count := s.m_count + n })) ∧
    (s.m_max < s.m_count + n →
      (reserve true fresh n s).1 = .ok s.m_count ∧
      (reserve true fresh n s).2.m_count = s.m_count + n ∧
      s.m_count + n ≤ (reserve true fresh n s).2.m_max ∧
      (s.m_max + s.m_max / 2 < 2 ^ 32 →
        (reserve true fresh n s).2.m_max = Nat.max (s.m_max + s.m_max / 2) (s.m_count + n)) ∧
      (reserve true fresh n s).2.m_values.addr = fresh.addr) ∧
    (s.m_count = s.m_max → reserve false fresh n s = (.error .CapacityExceeded, s)) ∧
    (s.m_count < s.m_max ∧ s.m_count + n ≤ s.m_max →
      reserve false fresh n s = (.ok s.m_count, { s with m_count := s.m_count + n })) := by
  refine ⟨?_, ?_, ?_, ?_, ?_⟩
  · rintro ⟨hn, hfull⟩
    subst hn
    exact reserve_full true fresh 0 s (by omega) (by rw [add32_eq h32]; omega)
  · rintro ⟨hlt, hle⟩
    exact reserve_of_room true fresh n s hlt hle h32
  · intro hgt
    rw [reserve_grow fresh n s hinv hgt h32]
    have hge := max_ge_right (add32 s.m_max (s.m_max >>> 1)) (s.m_count + n)
    simp only [resize, hmode, Bool.false_eq_true, if_false, BX_ALLOC, true_and]
    refine ⟨hge, ?_, ?_⟩
    · intro hsmall
      rw [proposedMax_eq hsmall, max_eq_natMax]
    · rw [if_pos (by omega)]
  · intro hfull
    rw [reserve_static, if_neg (by omega)]
  · rintro ⟨hlt, hle⟩
    exact reserve_of_room false fresh n s hlt hle h32

/-- Witness of C3: `reserve(1)` on a non-owning array with count 4 and capacity
4: the capacity becomes 6. -/
theorem C3_reserve_nonowning_witness :
    exampleFullFour.m_cleanup = false ∧ exampleFullFour.m_count ≤ exampleFullFour.m_max ∧
    exampleFullFour.m_count + 1 < 2 ^ 32 ∧
    exampleFullFour.m_max < exampleFullFour.m_count + 1 ∧
    exampleFullFour.m_max + exampleFullFour.m_max / 2 < 2 ^ 32 ∧
    (reserve true exampleFresh 1 exampleFullFour).1 = .ok exampleFullFour.m_count ∧
    (reserve true exampleFresh 1 exampleFullFour).2.m_max
      = Nat.max (exampleFullFour.m_max + exampleFullFour.m_max / 2) (exampleFullFour.m_count + 1) ∧
    (reserve true exampleFresh 1 exampleFullFour).2.m_max = 6 ∧
    (reserve true exampleFresh 1 exampleFullFour).2.m_values.addr = exampleFresh.addr :=
  ⟨rfl, by decide, by norm_num [exampleFullFour], by decide, by norm_num [exampleFullFour],
    ((C3_reserve_nonowning exampleFresh 1 exampleFullFour rfl (by decide)
      (by norm_num [exampleFullFour])).2.2.1 (by decide)).1,
    ((C3_reserve_nonowning exampleFresh 1 exampleFullFour rfl (by decide)
      (by norm_num [exampleFullFour])).2.2.1 (by decide)).2.2.2.1 (by norm_num [exampleFullFour]),
    rfl,
    ((C3_reserve_nonowning exampleFresh 1 exampleFullFour rfl (by decide)
      (by norm_num [exampleFullFour])).2.2.1 (by decide)).2.2.2.2⟩

/-- C4 fails as stated: `resize(3)` on a non-owning array of capacity 2 over the
caller's block at address 100 changes the capacity to 3 and makes `m_values`
point to the block newly obtained from the allocator, at address 200. -/
theorem C4_counterexample :
    exampleFull.m_cleanup = false ∧ exampleFull.m_max = 2 ∧ exampleFull.m_values.addr = 100 ∧
    (resize exampleFresh 3 exampleFull).m_max = 3 ∧
    (resize exampleFresh 3 exampleFull).m_count = 2 ∧
    (resize exampleFresh 3 exampleFull).m_values.addr = 200 :=
  ⟨rfl, rfl, rfl, rfl, rfl, rfl⟩

/-- C4, amended: for every array in non-owning mode and every `newCapacity`,
`resize(newCapacity)` has no failure: it sets capacity to `newCapacity`, keeps
the mode, and sets count to the smaller of count and `newCapacity` (so count is
unchanged when `count ≤ capacity < newCapacity`); when `newCapacity` is greater
than the current capacity the storage reference is replaced by the block newly
obtained from the allocator, and only when `newCapacity ≤ capacity` is the
storage left as it was. -/
theorem C4_resize_nonowning (fresh : Storage T) (newCapacity : Nat) (s : Array T)
    (hmode : s.m_cleanup = false) :
    (resize fresh newCapacity s).m_max = newCapacity ∧
    (resize fresh newCapacity s).m_cleanup = false ∧
    (resize fresh newCapacity s).m_count = min s.m_count newCapacity ∧
    (s.m_max < newCapacity → (resize fresh newCapacity s).m_values.addr = fresh.addr) ∧
    (s.m_max < newCapacity → s.m_count ≤ s.m_max → (resize fresh newCapacity s).m_count = s.m_count) ∧
    (newCapacity ≤ s.m_max → (resize fresh newCapacity s).m_values = s.m_values) := by
  simp only [resize, hmode, Bool.false_eq_true, if_false, BX_ALLOC, true_and]
  refine ⟨?_, ?_, ?_, ?_⟩
  · split <;> omega
  · intro h
    rw [if_pos h]
  · intro h hc
    rw [if_neg (by omega)]
  · intro h
    rw [if_neg (by omega)]

/-- Witness of C4: `resize(3)` on a non-owning array of capacity 2. -/
theorem C4_resize_nonowning_witness :
    exampleFull.m_cleanup = false ∧
    (resize exampleFresh 3 exampleFull).m_max = 3 ∧
    (resize exampleFresh 3 exampleFull).m_values.addr = exampleFresh.addr :=
  ⟨rfl, (C4_resize_nonowning exampleFresh 3 exampleFull rfl).1,
    (C4_resize_nonowning exampleFresh 3 exampleFull rfl).2.2.2.1 (by decide)⟩

/-- C5: for every list of values `v_0 .. v_{n-1}` with `n < 2^32`, starting from
an empty owning array of capacity 0 and calling `add(v_0)`, ..., `add(v_{n-1})`
(whatever blocks the allocator hands back), every `add` succeeds and the final
state has count `n`, capacity at least `n`, and `get(i)` returns `v_i` for every
`i < n`. -/
theorem C5_add_n_from_empty (mem : Storage T) (fresh : Nat → Storage T) (vs : List T)
    (hn : vs.length < 2 ^ 32) :
    (addAll true fresh vs (withCapacity mem 0)).1 = .ok () ∧
    (addAll true fresh vs (withCapacity mem 0)).2.m_count = vs.length ∧
    vs.length ≤ (addAll true fresh vs (withCapacity mem 0)).2.m_max ∧
    (∀ i v, vs[i]? = some v →
      (get i (addAll true fresh vs (withCapacity mem 0)).2).1 = .ok v) := by
  have e1 : (withCapacity mem 0).m_count = 0 := rfl
  obtain ⟨h1, h2, h3, _, h5, _⟩ := addAll_owning vs fresh (withCapacity mem 0) rfl
    (Nat.le_refl 0) (by rw [e1]; omega)
  rw [e1, Nat.zero_add] at h2
  refine ⟨h1, h2, by omega, ?_⟩
  intro i v hi
  have hlt : i < vs.length := by
    rcases Nat.lt_or_ge i vs.length with h | h
    · exact h
    · rw [List.getElem?_eq_none h] at hi
      cases hi
  have hv := h5 i v hi
  rw [e1, Nat.zero_add] at hv
  unfold get max
  rw [if_pos (by omega), hv]

/-- Witness of C5: the values 5, 6, 7 added to an empty owning array. -/
theorem C5_add_n_from_empty_witness :
    [5, 6, 7].length < 2 ^ 32 ∧
    (addAll true (fun _ => exampleFresh) [5, 6, 7] (withCapacity exampleBlock 0)).1 = .ok () ∧
    (addAll true (fun _ => exampleFresh) [5, 6, 7] (withCapacity exampleBlock 0)).2.m_count
      = [5, 6, 7].length ∧
    (get 2 (addAll true (fun _ => exampleFresh) [5, 6, 7] (withCapacity exampleBlock 0)).2).1 = .ok 7 :=
  ⟨by norm_num,
    (C5_add_n_from_empty exampleBlock (fun _ => exampleFresh) [5, 6, 7] (by norm_num)).1,
    (C5_add_n_from_empty exampleBlock (fun _ => exampleFresh) [5, 6, 7] (by norm_num)).2.1,
    (C5_add_n_from_empty exampleBlock (fun _ => exampleFresh) [5, 6, 7] (by norm_num)).2.2.2 2 7 rfl⟩

/-- C6 fails as stated: on an empty owning array of capacity 0, `reserve(0)`
does not succeed: the check `m_count < max()` fails. -/
theorem C6_counterexample :
    (withCapacity exampleBlock 0).m_cleanup = true ∧
    reserve true exampleFresh 0 (withCapacity exampleBlock 0)
      = (.error .CapacityExceeded, withCapacity exampleBlock 0) :=
  ⟨rfl, rfl⟩

/-- C6, amended: for every owning array with `count ≤ capacity` and every list of
`k` values with `count + k < 2^32`, where `k ≥ 1` or `count < capacity`,
`reserve(k)` succeeds, returns the position `oldCount` and leaves count
`oldCount + k` within the capacity; after the `k` values are written to the
slots from that position on, `get(oldCount + j)` returns the `j`-th value written
for every `j < k`, and `get(i)` for `i < oldCount` returns the element that was
there before `reserve`. -/
theorem C6_reserve_write_read (fresh : Storage T) (s : Array T) (vs : List T)
    (hown : s.m_cleanup = true) (hinv : s.m_count ≤ s.m_max)
    (h32 : s.m_count + vs.length < 2 ^ 32) (hk : 1 ≤ vs.length ∨ s.m_count < s.m_max) :
    (reserve true fresh vs.length s).1 = .ok s.m_count ∧
    (reserve true fresh vs.length s).2.m_count = s.m_count + vs.length ∧
    (reserve true fresh vs.length s).2.m_count ≤ (reserve true fresh vs.length s).2.m_max ∧
    (∀ j v, vs[j]? = some v →
      (get (s.m_count + j) (writeSlots vs s.m_count (reserve true fresh vs.length s).2)).1 = .ok v) ∧
    (∀ i, i < s.m_count →
      (get i (writeSlots vs s.m_count (reserve true fresh vs.length s).2)).1
        = .ok (s.m_values.slot i)) := by
  obtain ⟨r1, r2, r3, r4⟩ := reserve_owning fresh vs.length s hown hinv h32 hk
  obtain ⟨w1, w2, w3, w4⟩ := writeSlots_spec vs s.m_count (reserve true fresh vs.length s).2
  refine ⟨r1, r2, r3, ?_, ?_⟩
  · intro j v hj
    have hlt : j < vs.length := by
      rcases Nat.lt_or_ge j vs.length with h | h
      · exact h
      · rw [List.getElem?_eq_none h] at hj
        cases hj
    unfold get max
    rw [if_pos (by rw [w2]; omega), w3 j v hj]
  · intro i hi
    unfold get max
    rw [if_pos (by rw [w2]; omega), w4 i hi, r4 i hi]

/-- Witness of C6: three values reserved and written on an empty owning array. -/
theorem C6_reserve_write_read_witness :
    (withCapacity exampleBlock 0).m_cleanup = true ∧
    (withCapacity exampleBlock 0).m_count ≤ (withCapacity exampleBlock 0).m_max ∧
    (withCapacity exampleBlock 0).m_count + [5, 6, 7].length < 2 ^ 32 ∧
    (1 ≤ [5, 6, 7].length ∨ (withCapacity exampleBlock 0).m_count < (withCapacity exampleBlock 0).m_max) ∧
    (reserve true exampleFresh [5, 6, 7].length (withCapacity exampleBlock 0)).1
      = .ok (withCapacity exampleBlock 0).m_count ∧
    (get ((withCapacity exampleBlock 0).m_count + 1)
      (writeSlots [5, 6, 7] (withCapacity exampleBlock 0).m_count
        (reserve true exampleFresh [5, 6, 7].length (withCapacity exampleBlock 0)).2)).1 = .ok 6 :=
  ⟨rfl, by decide, by norm_num [withCapacity], Or.inl (by decide),
    (C6_reserve_write_read exampleFresh (withCapacity exampleBlock 0) [5, 6, 7] rfl (by decide)
      (by norm_num [withCapacity]) (Or.inl (by decide))).1,
    (C6_reserve_write_read exampleFresh (withCapacity exampleBlock 0) [5, 6, 7] rfl (by decide)
      (by norm_num [withCapacity]) (Or.inl (by decide))).2.2.2.1 1 6 rfl⟩

/-- C7: for every array with `0 < count ≤ capacity` (count a `uint32_t`)
whose logical contents are the list `e_0 .. e_{count-1}`, and every index
`i < count`, `remove(i)` returns `e_i`, decrements count by one, leaves the
capacity unchanged, and the new logical contents are the old list with the
element at position `i` deleted, the other elements keeping their order. -/
theorem C7_remove_deletes_in_order (i : Nat) (s : Array T)
    (hinv : s.m_count ≤ s.m_max) (h32 : s.m_count < 2 ^ 32) (hi : i < s.m_count) :
    (contents s)[i]? = some (s.m_values.slot i) ∧
    (remove i s).1 = .ok (s.m_values.slot i) ∧
    (remove i s).2.m_count = s.m_count - 1 ∧
    (remove i s).2.m_max = s.m_max ∧
    contents (remove i s).2 = (contents s).eraseIdx i := by
  rw [remove_ok i s hinv h32 hi]
  refine ⟨by rw [contents_getElem?, if_pos hi], rfl, rfl, rfl, ?_⟩
  apply List.ext_getElem?
  intro n
  rw [List.getElem?_eraseIdx, contents_getElem?]
  simp only [contents_getElem?, Storage.memmove]
  rcases Nat.lt_or_ge n i with h1 | h1
  · have a1 : n < s.m_count - 1 := by omega
    have a2 : ¬ (i ≤ n ∧ n < i + (s.m_count - i - 1)) := by omega
    have a3 : n < s.m_count := by omega
    simp only [if_pos h1, if_pos a1, if_neg a2, if_pos a3]
  · have b1 : ¬ n < i := by omega
    by_cases h2 : n < s.m_count - 1
    · have a2 : i ≤ n ∧ n < i + (s.m_count - i - 1) := by omega
      have a3 : n + 1 < s.m_count := by omega
      simp only [if_neg b1, if_pos h2, if_pos a2, if_pos a3]
      rw [show i + 1 + (n - i) = n + 1 by omega]
    · have a3 : ¬ n + 1 < s.m_count := by omega
      simp only [if_neg b1, if_neg h2, if_neg a3]

/-- Witness of C7: `remove(1)` on an array holding 0, 10, 20 in capacity 4. -/
theorem C7_remove_deletes_in_order_witness :
    (3 : Nat) ≤ 4 ∧ (3 : Nat) < 2 ^ 32 ∧ (1 : Nat) < 3 ∧
    (remove 1 ({ m_values := exampleBlock, m_count := 3, m_max := 4, m_cleanup := true } : Array Nat)).1
      = .ok 10 ∧
    contents (remove 1
      ({ m_values := exampleBlock, m_count := 3, m_max := 4, m_cleanup := true } : Array Nat)).2
      = [0, 20] :=
  ⟨by decide, by norm_num, by decide,
    (C7_remove_deletes_in_order 1
      ({ m_values := exampleBlock, m_count := 3, m_max := 4, m_cleanup := true } : Array Nat)
      (by decide) (by norm_num) (by decide)).2.1,
    (C7_remove_deletes_in_order 1
      ({ m_values := exampleBlock, m_count := 3, m_max := 4, m_cleanup := true } : Array Nat)
      (by decide) (by norm_num) (by decide)).2.2.2.2⟩

/-- C8: for every array with `0 < count ≤ capacity` (count a `uint32_t`) and
every index `i < count`, `removeSwap(i)` returns the element formerly at `i`,
decrements count by one, leaves the capacity unchanged, puts the element
formerly at the last logical index `count - 1` at position `i`, and leaves
every other element below the new count unchanged. In particular an owning
array (of any initial capacity, with any allocator) built by `add` of
1, 2, 3, 4, 5 has count 5, after `removeSwap(1)`, which returns 2, has logical
contents 1, 5, 3, 4 and count 4, and a following `pop()` returns 4 and leaves
count 3. -/
theorem C8_removeSwap (i : Nat) (s : Array T)
    (hinv : s.m_count ≤ s.m_max) (h32 : s.m_count < 2 ^ 32) (hi : i < s.m_count) :
    ((removeSwap i s).1 = .ok (s.m_values.slot i) ∧
      (removeSwap i s).2.m_count = s.m_count - 1 ∧
      (removeSwap i s).2.m_max = s.m_max ∧
      (removeSwap i s).2.m_values.slot i = s.m_values.slot (s.m_count - 1) ∧
      (∀ j, j < s.m_count - 1 → j ≠ i →
        (removeSwap i s).2.m_values.slot j = s.m_values.slot j)) ∧
    (∀ (mem : Storage Nat) (fresh : Nat → Storage Nat) (n : Nat),
      (addAll true fresh [1, 2, 3, 4, 5] (withCapacity mem n)).1 = .ok () ∧
      (addAll true fresh [1, 2, 3, 4, 5] (withCapacity mem n)).2.m_count = 5 ∧
      (removeSwap 1 (addAll true fresh [1, 2, 3, 4, 5] (withCapacity mem n)).2).1 = .ok 2 ∧
      contents (removeSwap 1 (addAll true fresh [1, 2, 3, 4, 5] (withCapacity mem n)).2).2
        = [1, 5, 3, 4] ∧
      (removeSwap 1 (addAll true fresh [1, 2, 3, 4, 5] (withCapacity mem n)).2).2.m_count = 4 ∧
      (pop (removeSwap 1 (addAll true fresh [1, 2, 3, 4, 5] (withCapacity mem n)).2).2).1 = .ok 4 ∧
      (pop (removeSwap 1 (addAll true fresh [1, 2, 3, 4, 5] (withCapacity mem n)).2).2).2.m_count
        = 3) := by
  constructor
  · rw [removeSwap_ok i s hinv h32 hi]
    refine ⟨rfl, rfl, rfl, by simp [Storage.write], ?_⟩
    intro j _ hne
    simp only [Storage.write]
    rw [if_neg hne]
  · intro mem fresh n
    have e1 : (withCapacity mem n).m_count = 0 := rfl
    obtain ⟨h1, h2, h3, _, h5, _⟩ := addAll_owning [1, 2, 3, 4, 5] fresh (withCapacity mem n) rfl
      (by rw [e1]; omega) (by rw [e1]; norm_num)
    rw [e1] at h2 h5
    simp only [List.length_cons, List.length_nil, Nat.zero_add] at h2
    have s0 := h5 0 1 rfl
    have s1 := h5 1 2 rfl
    have s2 := h5 2 3 rfl
    have s3 := h5 3 4 rfl
    have s4 := h5 4 5 rfl
    simp only [Nat.zero_add] at s0 s1 s2 s3 s4
    rw [removeSwap_ok 1 _ h3 (by rw [h2]; norm_num) (by rw [h2]; norm_num)]
    rw [pop_ok _ (by simp only [h2]; norm_num) (by simp only [h2]; norm_num)]
    refine ⟨h1, h2, by rw [s1], ?_, by simp only [h2], ?_, by simp only [h2]⟩
    · simp [contents, h2, List.range_succ, Storage.write, s0, s2, s3, s4]
    · simp [h2, Storage.write, s3]

/-- Witness of C8: `removeSwap(0)` on an array holding 0, 10, 20 in capacity 4. -/
theorem C8_removeSwap_witness :
    (3 : Nat) ≤ 4 ∧ (3 : Nat) < 2 ^ 32 ∧ (0 : Nat) < 3 ∧
    (removeSwap 0 ({ m_values := exampleBlock, m_count := 3, m_max := 4, m_cleanup := true } : Array Nat)).1
      = .ok 0 ∧
    (removeSwap 0
      ({ m_values := exampleBlock, m_count := 3, m_max := 4, m_cleanup := true } : Array Nat)).2.m_values.slot 0
      = 20 :=
  ⟨by decide, by norm_num, by decide,
    (C8_removeSwap 0
      ({ m_values := exampleBlock, m_count := 3, m_max := 4, m_cleanup := true } : Array Nat)
      (by decide) (by norm_num) (by decide)).1.1,
    (C8_removeSwap 0
      ({ m_values := exampleBlock, m_count := 3, m_max := 4, m_cleanup := true } : Array Nat)
      (by decide) (by norm_num) (by decide)).1.2.2.2.1⟩

/-- C9: for every owning array with `count ≤ capacity` and every list of values
`v_1 .. v_m` with `count + m < 2^32`, the calls `add(v_1)`, ..., `add(v_m)` all
succeed, the `m` calls of `pop()` after them all succeed and return
`v_m, ..., v_1` in that order, and afterwards count and the elements below the
original count are what they were before the adds. -/
theorem C9_pop_inverts_add (fresh : Nat → Storage T) (s : Array T) (vs : List T)
    (hown : s.m_cleanup = true) (hinv : s.m_count ≤ s.m_max)
    (h32 : s.m_count + vs.length < 2 ^ 32) :
    (addAll true fresh vs s).1 = .ok () ∧
    (popN vs.length (addAll true fresh vs s).2).1 = .ok vs.reverse ∧
    (popN vs.length (addAll true fresh vs s).2).2.m_count = s.m_count ∧
    (∀ i, i < s.m_count →
      (popN vs.length (addAll true fresh vs s).2).2.m_values.slot i = s.m_values.slot i) :=
  addAll_popN fresh s vs hown hinv h32

/-- Witness of C9: 5, 6, 7 added to an owning array holding one element in
capacity 1, then popped. -/
theorem C9_pop_inverts_add_witness :
    (1 : Nat) ≤ 1 ∧ 1 + [5, 6, 7].length < 2 ^ 32 ∧
    (popN [5, 6, 7].length
      (addAll true (fun _ => exampleFresh) [5, 6, 7]
        ({ m_values := exampleBlock, m_count := 1, m_max := 1, m_cleanup := true } : Array Nat)).2).1
      = .ok [7, 6, 5] :=
  ⟨by decide, by norm_num,
    (C9_pop_inverts_add (fun _ => exampleFresh)
      ({ m_values := exampleBlock, m_count := 1, m_max := 1, m_cleanup := true } : Array Nat)
      [5, 6, 7] rfl (by decide) (by norm_num)).2.1⟩

/-- C10: for every array and every index, `get(index)` and both forms of
`operator[]` fail with `IndexOutOfRange` exactly when `index ≥ capacity`; when
`index < capacity` they succeed and yield the slot at `index` (the value it
holds for `get` and `operator[] const`, the slot itself for the reference
form), whether or not `index ≥ count`; and none of them changes the array, in
particular neither count nor capacity. -/
theorem C10_indexed_access (_idx : Nat) (s : Array T) :
    (get _idx s =
      (if _idx < s.m_max then .ok (s.m_values.slot _idx) else .error .IndexOutOfRange, s)) ∧
    (indexConst _idx s =
      (if _idx < s.m_max then .ok (s.m_values.slot _idx) else .error .IndexOutOfRange, s)) ∧
    (indexRef _idx s = (if _idx < s.m_max then .ok _idx else .error .IndexOutOfRange, s)) ∧
    ((get _idx s).1 = .error .IndexOutOfRange ↔ s.m_max ≤ _idx) ∧
    ((indexConst _idx s).1 = .error .IndexOutOfRange ↔ s.m_max ≤ _idx) ∧
    ((indexRef _idx s).1 = .error .IndexOutOfRange ↔ s.m_max ≤ _idx) ∧
    (get _idx s).2.m_count = s.m_count ∧ (get _idx s).2.m_max = s.m_max ∧
    (indexConst _idx s).2.m_count = s.m_count ∧ (indexConst _idx s).2.m_max = s.m_max ∧
    (indexRef _idx s).2.m_count = s.m_count ∧ (indexRef _idx s).2.m_max = s.m_max := by
  by_cases h : _idx < s.m_max
  · have hn : ¬ s.m_max ≤ _idx := by omega
    simp [get, indexConst, indexRef, max, h, hn]
  · have hn : s.m_max ≤ _idx := by omega
    simp [get, indexConst, indexRef, max, h, hn]

/-- C11 fails as stated: on an array of capacity 4 and count 1, `cut(4)`, with
the index equal to the capacity, does not succeed: it fails with
`IndexOutOfRange` and count stays 1. -/
theorem C11_counterexample :
    exampleRoomy.m_max = 4 ∧
    cut 4 exampleRoomy = (.error .IndexOutOfRange, exampleRoomy) ∧
    (cut 4 exampleRoomy).2.m_count = 1 :=
  ⟨rfl, rfl, rfl⟩

/-- C11, amended: for every array and every index, `cut(index)` succeeds exactly
when `index < capacity` (the capacity itself excluded), and then sets count to
`index` and leaves the capacity, the mode and the stored slots unchanged; it
fails with `IndexOutOfRange` exactly when `index ≥ capacity`, and then leaves
the array, count included, unchanged. -/
theorem C11_cut (_idx : Nat) (s : Array T) :
    (cut _idx s =
      if _idx < s.m_max then (.ok (), { s with m_count := _idx })
      else (.error .IndexOutOfRange, s)) ∧
    ((cut _idx s).1 = .ok () ↔ _idx < s.m_max) ∧
    ((cut _idx s).1 = .error .IndexOutOfRange ↔ s.m_max ≤ _idx) ∧
    (cut _idx s).2.m_count = (if _idx < s.m_max then _idx else s.m_count) ∧
    (cut _idx s).2.m_max = s.m_max ∧
    (cut _idx s).2.m_values = s.m_values ∧
    (cut _idx s).2.m_cleanup = s.m_cleanup := by
  by_cases h : _idx < s.m_max
  · have hn : ¬ s.m_max ≤ _idx := by omega
    simp [cut, max, h, hn]
  · have hn : s.m_max ≤ _idx := by omega
    simp [cut, max, h, hn]

/-- C12: for every owning array with `count ≤ capacity` (and whatever block the
allocator hands back), `shrink()` sets the capacity to exactly the current
count, leaves count and every element at an index below count unchanged, and
afterwards `get(i)` fails with `IndexOutOfRange` for every index `i ≥ count`. -/
theorem C12_shrink (fresh : Storage T) (s : Array T)
    (hown : s.m_cleanup = true) (hinv : s.m_count ≤ s.m_max) :
    (shrink fresh s).m_max = s.m_count ∧
    (shrink fresh s).m_count = s.m_count ∧
    (∀ i, i < s.m_count → (shrink fresh s).m_values.slot i = s.m_values.slot i) ∧
    (∀ i, i < s.m_count → (get i (shrink fresh s)).1 = .ok (s.m_values.slot i)) ∧
    (∀ i, s.m_count ≤ i → get i (shrink fresh s) = (.error .IndexOutOfRange, shrink fresh s)) := by
  have hslot : ∀ i, i < s.m_count → (shrink fresh s).m_values.slot i = s.m_values.slot i := by
    intro i hi
    simp only [shrink, resize, hown, if_true, BX_REALLOC]
    rw [if_pos (by simp only [lt_min_iff]; omega)]
  have hmax : (shrink fresh s).m_max = s.m_count := rfl
  refine ⟨hmax, by simp [shrink, resize], hslot, ?_, ?_⟩
  · intro i hi
    unfold get max
    rw [if_pos (by rw [hmax]; exact hi), hslot i hi]
  · intro i hi
    unfold get max
    rw [if_neg (by rw [hmax]; omega)]

/-- Witness of C12: `shrink()` on an owning array with count 3 and capacity 4. -/
theorem C12_shrink_witness :
    exampleOwning.m_cleanup = true ∧ exampleOwning.m_count ≤ exampleOwning.m_max ∧
    (shrink exampleFresh exampleOwning).m_max = exampleOwning.m_count ∧
    get 3 (shrink exampleFresh exampleOwning)
      = (.error .IndexOutOfRange, shrink exampleFresh exampleOwning) :=
  ⟨rfl, by decide, (C12_shrink exampleFresh exampleOwning rfl (by decide)).1,
    (C12_shrink exampleFresh exampleOwning rfl (by decide)).2.2.2.2 3 (by decide)⟩

/-- C13: for every array, after `zero()` the call `get(i)` returns the zero value
of `T` for every `i < capacity`, whatever count is, and `zero()` leaves count,
capacity and mode unchanged. -/
theorem C13_zero [Zero T] (s : Array T) :
    (∀ i, i < s.m_max → get i (zero s) = (.ok 0, zero s)) ∧
    (zero s).m_count = s.m_count ∧
    (zero s).m_max = s.m_max ∧
    (zero s).m_cleanup = s.m_cleanup := by
  refine ⟨?_, rfl, rfl, rfl⟩
  intro i hi
  have hmax : (zero s).m_max = s.m_max := rfl
  unfold get max
  rw [if_pos (by rw [hmax]; exact hi)]
  simp [zero, Storage.memset0, max, hi]

/-- C14 fails as stated: on an empty array of capacity 2, `remove(5)` and
`removeSwap(5)` have an index beyond the capacity, and fail with `Underflow`,
not with `IndexOutOfRange`: the check of count comes first. -/
theorem C14_counterexample :
    exampleEmpty.m_count = 0 ∧ exampleEmpty.m_max = 2 ∧
    remove 5 exampleEmpty = (.error .Underflow, exampleEmpty) ∧
    removeSwap 5 exampleEmpty = (.error .Underflow, exampleEmpty) :=
  ⟨rfl, rfl, rfl, rfl⟩

/-- C14, amended: for every array with `count == 0`, `pop()`, `remove(index)` and
`removeSwap(index)` fail with `Underflow` for every index; for every array with
`0 < count ≤ capacity` and every `index ≥ capacity`, `remove(index)` and
`removeSwap(index)` fail with `IndexOutOfRange`; in each of these failing cases
the array (count, capacity, stored slots) is unchanged. -/
theorem C14_failures (_idx : Nat) (s : Array T) :
    (s.m_count = 0 →
      pop s = (.error .Underflow, s) ∧
      remove _idx s = (.error .Underflow, s) ∧
      removeSwap _idx s = (.error .Underflow, s)) ∧
    (0 < s.m_count → s.m_count ≤ s.m_max → s.m_max ≤ _idx →
      remove _idx s = (.error .IndexOutOfRange, s) ∧
      removeSwap _idx s = (.error .IndexOutOfRange, s)) := by
  constructor
  · intro h0
    simp [pop, remove, removeSwap, h0]
  · intro hpos hinv hidx
    have hn : ¬ _idx < s.m_max := by omega
    simp [remove, removeSwap, max, hpos, hinv, hn]

/-- Witness of C14: an empty array, and `remove(7)` on an array with count 1 and
capacity 4. -/
theorem C14_failures_witness :
    exampleEmpty.m_count = 0 ∧ pop exampleEmpty = (.error .Underflow, exampleEmpty) ∧
    0 < exampleRoomy.m_count ∧ exampleRoomy.m_count ≤ exampleRoomy.m_max ∧
    exampleRoomy.m_max ≤ 7 ∧
    remove 7 exampleRoomy = (.error .IndexOutOfRange, exampleRoomy) :=
  ⟨rfl, ((C14_failures 0 exampleEmpty).1 rfl).1, by decide, by decide, by decide,
    ((C14_failures 7 exampleRoomy).2 (by decide) (by decide) (by decide)).1⟩

/-- C18: for every owning array with `count ≤ capacity` and every `extraCount`
such that `count + extraCount` and `capacity + capacity/2` are below `2^32`:
if `count + extraCount ≤ capacity`, `expandIfNecessaryToMakeRoomFor` changes
nothing; otherwise it is the call of `resize` with exactly the greater of
`capacity + capacity/2` and `count + extraCount`, after which the capacity is
that value, at least `count + extraCount`, while count and every element at an
index below count are unchanged. -/
theorem C18_growth_step (fresh : Storage T) (extraCount : Nat) (s : Array T)
    (hown : s.m_cleanup = true) (hinv : s.m_count ≤ s.m_max)
    (h1 : s.m_count + extraCount < 2 ^ 32) (h2 : s.m_max + s.m_max / 2 < 2 ^ 32) :
    (s.m_count + extraCount ≤ s.m_max →
      expandIfNecessaryToMakeRoomFor fresh extraCount s = s) ∧
    (s.m_max < s.m_count + extraCount →
      expandIfNecessaryToMakeRoomFor fresh extraCount s
        = resize fresh (Nat.max (s.m_max + s.m_max / 2) (s.m_count + extraCount)) s ∧
      (expandIfNecessaryToMakeRoomFor fresh extraCount s).m_max
        = Nat.max (s.m_max + s.m_max / 2) (s.m_count + extraCount) ∧
      (s.m_count + extraCount ≤ s.m_max + s.m_max / 2 →
        (expandIfNecessaryToMakeRoomFor fresh extraCount s).m_max = s.m_max + s.m_max / 2) ∧
      (s.m_max + s.m_max / 2 ≤ s.m_count + extraCount →
        (expandIfNecessaryToMakeRoomFor fresh extraCount s).m_max = s.m_count + extraCount) ∧
      s.m_count + extraCount ≤ (expandIfNecessaryToMakeRoomFor fresh extraCount s).m_max ∧
      (expandIfNecessaryToMakeRoomFor fresh extraCount s).m_count = s.m_count ∧
      (∀ i, i < s.m_count →
        (expandIfNecessaryToMakeRoomFor fresh extraCount s).m_values.slot i
          = s.m_values.slot i)) := by
  have ha : add32 s.m_count extraCount = s.m_count + extraCount := add32_eq h1
  have hb : add32 s.m_max (s.m_max >>> 1) = s.m_max + s.m_max / 2 := proposedMax_eq h2
  have hdef : Nat.max (s.m_max + s.m_max / 2) (s.m_count + extraCount)
      = if s.m_max + s.m_max / 2 ≤ s.m_count + extraCount then s.m_count + extraCount
        else s.m_max + s.m_max / 2 := by
    simp only [Nat.max_def]
  constructor
  · intro hle
    unfold expandIfNecessaryToMakeRoomFor
    simp only [ha]
    rw [if_neg (by omega)]
  · intro hgt
    have he : expandIfNecessaryToMakeRoomFor fresh extraCount s
        = resize fresh (Nat.max (s.m_max + s.m_max / 2) (s.m_count + extraCount)) s := by
      unfold expandIfNecessaryToMakeRoomFor
      simp only [ha, hb]
      rw [if_pos (by omega), max_eq_natMax]
    have hmax : (resize fresh (Nat.max (s.m_max + s.m_max / 2) (s.m_count + extraCount)) s).m_max
        = Nat.max (s.m_max + s.m_max / 2) (s.m_count + extraCount) := rfl
    have hge : s.m_count + extraCount
        ≤ Nat.max (s.m_max + s.m_max / 2) (s.m_count + extraCount) := by
      rw [hdef]
      split <;> omega
    rw [he]
    refine ⟨rfl, hmax, ?_, ?_, by rw [hmax]; exact hge, ?_, ?_⟩
    · intro hle
      rw [hmax, hdef]
      split <;> omega
    · intro hle
      rw [hmax, hdef, if_pos hle]
    · simp only [resize]
      rw [if_neg (by omega)]
    · intro i hi
      simp only [resize, hown, if_true, BX_REALLOC]
      rw [if_pos (by simp only [lt_min_iff]; omega)]

/-- Witness of C18: on an owning array with count 3 and capacity 4, room for 2
more elements gives capacity 6 (the geometric proposal 4 + 2 wins over 5), and
room for 10 more gives capacity 13 (the need 3 + 10 wins over 6). -/
theorem C18_growth_step_witness :
    exampleOwning.m_cleanup = true ∧ exampleOwning.m_count ≤ exampleOwning.m_max ∧
    exampleOwning.m_count + 2 < 2 ^ 32 ∧ exampleOwning.m_count + 10 < 2 ^ 32 ∧
    exampleOwning.m_max + exampleOwning.m_max / 2 < 2 ^ 32 ∧
    (expandIfNecessaryToMakeRoomFor exampleFresh 2 exampleOwning).m_max
      = exampleOwning.m_max + exampleOwning.m_max / 2 ∧
    (expandIfNecessaryToMakeRoomFor exampleFresh 2 exampleOwning).m_max = 6 ∧
    (expandIfNecessaryToMakeRoomFor exampleFresh 10 exampleOwning).m_max
      = exampleOwning.m_count + 10 ∧
    (expandIfNecessaryToMakeRoomFor exampleFresh 10 exampleOwning).m_max = 13 :=
  ⟨rfl, by decide, by norm_num [exampleOwning], by norm_num [exampleOwning],
    by norm_num [exampleOwning],
    ((C18_growth_step exampleFresh 2 exampleOwning rfl (by decide) (by norm_num [exampleOwning])
      (by norm_num [exampleOwning])).2 (by decide)).2.2.1 (by decide),
    rfl,
    ((C18_growth_step exampleFresh 10 exampleOwning rfl (by decide) (by norm_num [exampleOwning])
      (by norm_num [exampleOwning])).2 (by decide)).2.2.2.1 (by decide),
    rfl⟩

/-- C19 fails on the code: on an array with count 1 and capacity 4, `remove(2)`
passes both checks (`0 < 1 ≤ 4` and `2 < 4`) and succeeds, and the length it
hands to `memmove`, `1 - 2 - 1` in `uint32_t` arithmetic, is `2^32 - 2`, so that
the block moved ends far beyond the capacity. The same happens for every array
with `0 < count ≤ capacity` and every index with `count ≤ index < capacity`:
both checks pass and the block moved ends at `2^32 + count`. -/
theorem C19_remove_moves_past_capacity :
    ((0 < exampleRoomy.m_count ∧ exampleRoomy.m_count ≤ exampleRoomy.m_max) ∧
      2 < exampleRoomy.m_max ∧
      (remove 2 exampleRoomy).1 = .ok 20 ∧
      removeMoveLen 2 exampleRoomy = 4294967294 ∧
      exampleRoomy.m_max < 2 + 1 + removeMoveLen 2 exampleRoomy) ∧
    (∀ (s : Array T) (_idx : Nat),
      0 < s.m_count → s.m_count ≤ s.m_max → s.m_max < 2 ^ 32 →
      s.m_count ≤ _idx → _idx < s.m_max →
      (remove _idx s).1 = .ok (s.m_values.slot _idx) ∧
      _idx + 1 + removeMoveLen _idx s = 2 ^ 32 + s.m_count ∧
      s.m_max < _idx + 1 + removeMoveLen _idx s) := by
  refine ⟨⟨by decide, by decide, rfl, rfl, by decide⟩, ?_⟩
  intro s _idx hpos hinv h32 hge hlt
  have hw := removeMoveLen_wrapped _idx s (by omega) hge
  refine ⟨?_, hw, by omega⟩
  unfold remove max
  rw [if_pos ⟨hpos, hinv⟩, if_pos hlt]

end Array

/-! ## Alignment -/

theorem and_wrapNot_mask (w k x : Nat) (hk : k ≤ w) (hx : x < 2 ^ w) :
    x &&& wrapNot w (2 ^ k - 1) = x / 2 ^ k * 2 ^ k := by
  have hpos : 0 < 2 ^ k := Nat.two_pow_pos k
  have hle : 2 ^ k ≤ 2 ^ w := Nat.pow_le_pow_right (by norm_num) hk
  have hmask : 2 ^ k - 1 < 2 ^ w := by omega
  have hnot : wrapNot w (2 ^ k - 1) = 2 ^ w - (2 ^ k - 1 + 1) := by
    unfold wrapNot
    rw [Nat.mod_eq_of_lt hmask]
    omega
  rw [hnot, ← Nat.shiftRight_eq_div_pow, ← Nat.shiftLeft_eq]
  apply Nat.eq_of_testBit_eq
  intro i
  rw [Nat.testBit_and, Nat.testBit_two_pow_sub_succ hmask, Nat.testBit_two_pow_sub_one,
    Nat.testBit_shiftLeft, Nat.testBit_shiftRight]
  by_cases hik : i < k
  · have : ¬ i ≥ k := by omega
    simp [hik, this]
  · have hge : i ≥ k := by omega
    have hidx : k + (i - k) = i := by omega
    rw [hidx]
    by_cases hiw : i < w
    · simp [hik, hge, hiw]
    · have hxi : x.testBit i = false :=
        Nat.testBit_lt_two_pow (lt_of_lt_of_le hx (Nat.pow_le_pow_right (by norm_num) (by omega)))
      simp [hxi]

theorem alignSizeNext_eq (bits v k : Nat) (hk : k < bits) (hv : v + 2 ^ k - 1 < 2 ^ bits) :
    alignSizeNext bits v (2 ^ k) = (v + 2 ^ k - 1) / 2 ^ k * 2 ^ k := by
  have hpos : 0 < 2 ^ k := Nat.two_pow_pos k
  have hlt : 2 ^ k < 2 ^ bits := Nat.pow_lt_pow_right (by norm_num) hk
  have hmask : wrapSub bits (2 ^ k) 1 = 2 ^ k - 1 := by
    unfold wrapSub
    rw [if_pos (by omega)]
    exact Nat.mod_eq_of_lt (by omega)
  have hadd : wrapAdd bits v (2 ^ k - 1) = v + 2 ^ k - 1 := by
    unfold wrapAdd
    rw [Nat.mod_eq_of_lt (by omega)]
    omega
  unfold alignSizeNext
  simp only [hmask, hadd]
  exact and_wrapNot_mask bits k _ (by omega) hv

theorem align_eq (v k : Nat) (hk : k < 32) (hv : v + 2 ^ k - 1 < 2 ^ 32) :
    align v (2 ^ k) = (v + 2 ^ k - 1) / 2 ^ k * 2 ^ k :=
  alignSizeNext_eq 32 v k hk hv

theorem roundUp_isSmallest (a v : Nat) (ha : 0 < a) :
    IsSmallestMultipleGE a v ((v + a - 1) / a * a) := by
  have hdm := Nat.div_add_mod (v + a - 1) a
  have hmod := Nat.mod_lt (v + a - 1) ha
  have hcomm : (v + a - 1) / a * a = a * ((v + a - 1) / a) := Nat.mul_comm _ _
  have hmin : ∀ m, a ∣ m → v ≤ m → (v + a - 1) / a * a ≤ m := by
    intro m hm hvm
    obtain ⟨c, rfl⟩ := hm
    rw [hcomm]
    by_contra hlt
    have hlt2 : a * c < a * ((v + a - 1) / a) := by omega
    have hc : c < (v + a - 1) / a := Nat.lt_of_mul_lt_mul_left hlt2
    have hstep : a * (c + 1) ≤ a * ((v + a - 1) / a) := Nat.mul_le_mul_left a hc
    rw [Nat.mul_add, Nat.mul_one] at hstep
    omega
  refine ⟨Dvd.intro_left _ rfl, by rw [hcomm]; omega, by rw [hcomm]; omega, hmin, ?_⟩
  intro hdv
  have h1 := hmin v hdv (Nat.le_refl v)
  have h2 : v ≤ (v + a - 1) / a * a := by rw [hcomm]; omega
  omega

/-! ## `trim` on a string without white space -/

theorem charAt_append (cs : List Nat) (i : Nat) (hi : i < cs.length) :
    charAt (cs ++ [0]) (i : Int) = cs[i] := by
  unfold charAt
  rw [if_pos (by omega), Int.toNat_ofNat, List.getD_append _ _ _ _ hi, List.getD_eq_getElem _ _ hi]

theorem cstringAt_append (cs : List Nat) (hc : ∀ c ∈ cs, c ≠ 0) :
    cstringAt (cs ++ [0]) 0 = cs := by
  unfold cstringAt
  rw [List.drop_zero, List.takeWhile_append_of_pos (by
    intro a ha
    simpa using hc a ha)]
  simp

theorem cstringAt_set_last (cs : List Nat) (hne : cs ≠ []) (hc : ∀ c ∈ cs, c ≠ 0) :
    cstringAt ((cs ++ [0]).set (cs.length - 1) 0) 0 = cs.dropLast := by
  unfold cstringAt
  rw [List.drop_zero]
  induction cs with
  | nil => exact absurd rfl hne
  | cons a t ih =>
    cases t with
    | nil => simp
    | cons b u =>
      have ha : a ≠ 0 := hc a (by simp)
      have ih2 := ih (by simp) (fun c hcm => hc c (List.mem_cons_of_mem a hcm))
      have hlen : (a :: b :: u).length - 1 = ((b :: u).length - 1) + 1 := by
        simp only [List.length_cons]
        omega
      rw [hlen, List.cons_append, List.set_cons_succ, List.takeWhile_cons,
        if_pos (by simpa using ha), ih2]
      exact (List.dropLast_cons_of_ne_nil (List.cons_ne_nil b u)).symm

/-- On every non-empty string none of whose characters is NUL or white space,
`trim` returns the string without its last character. -/
theorem trim_without_space (cs : List Nat) (hne : cs ≠ [])
    (hc : ∀ c ∈ cs, c ≠ 0 ∧ isspace c = false) :
    trimmed (cs ++ [0]) 0 = cs.dropLast := by
  have hlen : 0 < cs.length := List.length_pos.mpr hne
  have hnz : ∀ c ∈ cs, c ≠ 0 := fun c h => (hc c h).1
  have hfirst : charAt (cs ++ [0]) ((0 : Nat) : Int) = cs[0] := charAt_append cs 0 hlen
  have hlast : charAt (cs ++ [0]) ((cs.length - 1 : Nat) : Int) = cs[cs.length - 1] :=
    charAt_append cs (cs.length - 1) (by omega)
  have hskip : trimSkipLoop (cs ++ [0]) (cs ++ [0]).length 0 = 0 := by
    rw [List.length_append, List.length_singleton, trimSkipLoop, hfirst,
      (hc _ (List.getElem_mem _)).2]
    rfl
  have hstr : strlen (cs ++ [0]) 0 = cs.length := by
    unfold strlen
    rw [cstringAt_append cs hnz]
  have he0 : ((0 : Nat) : Int) + ((cs.length : Nat) : Int) - 1 = ((cs.length - 1 : Nat) : Int) := by
    omega
  have hend : trimEndLoop (cs ++ [0]) 0 (cs ++ [0]).length ((cs.length - 1 : Nat) : Int)
      = ((cs.length - 1 : Nat) : Int) - 1 := by
    rw [List.length_append, List.length_singleton, trimEndLoop]
    simp only [hlast, (hc _ (List.getElem_mem _)).2, Bool.false_and]
    rfl
  have hw : (((cs.length - 1 : Nat) : Int) - 1 + 1).toNat = cs.length - 1 := by
    omega
  unfold trimmed trim
  simp only [hskip, hfirst, hstr, he0, hend, hw]
  rw [if_neg (hnz _ (List.getElem_mem _))]
  exact cstringAt_set_last cs hne hnz

/-! ## Claims about misc.h -/

/-- C16 fails on the code: `trim` of "ab" (codes 97, 98) returns "a", `trim` of
" ab " returns "a", and `trim` of "a" returns the empty string, where leading
and trailing white space removed gives "ab", "ab" and "a": the second loop
steps `end` back once more after the last character that is not a space, and
the terminator is written over that character. Only a result of one character
followed by white space comes out right ("a " gives "a"). In general `trim`
removes the last character of every non-empty string that holds no white
space at all. -/
theorem C16_trim_drops_last_character :
    (trimmed [97, 98, 0] 0 = [97] ∧ trimSpec [97, 98] = [97, 98]) ∧
    (trimmed [32, 97, 98, 32, 0] 0 = [97] ∧ trimSpec [32, 97, 98, 32] = [97, 98]) ∧
    (trimmed [97, 0] 0 = [] ∧ trimSpec [97] = [97]) ∧
    (trimmed [97, 32, 0] 0 = [97] ∧ trimSpec [97, 32] = [97]) ∧
    (∀ cs : List Nat, cs ≠ [] → (∀ c ∈ cs, c ≠ 0 ∧ isspace c = false) →
      trimmed (cs ++ [0]) 0 = cs.dropLast) := by
  refine ⟨by decide, by decide, by decide, by decide, ?_⟩
  intro cs hne hc
  exact trim_without_space cs hne hc

/-- C17 fails as stated: for the input 13450000 of the source comment,
`asMBInt` returns 12 and `asMBDec` returns 846 (the remainder 867088 holds 846
whole kilobytes), not 826. -/
theorem C17_counterexample :
    asMBInt 13450000 = 12 ∧ asMBDec 13450000 = 846 ∧ 13450000 % 2 ^ 20 / 2 ^ 10 = 846 := by
  decide

/-- C17, amended: for every 64-bit data size, `asMBInt(size)` is the number of
whole megabytes, `size div 2^20`, and `asMBDec(size)` is the number of whole
kilobytes in the remainder, `(size mod 2^20) div 2^10`, always below 1024; for
the input 13450000 `asMBInt` returns 12 and `asMBDec` returns 846. -/
theorem C17_asMB (size : Nat) (hsize : size < 2 ^ 64) :
    asMBInt size = size / 2 ^ 20 ∧
    asMBDec size = size % 2 ^ 20 / 2 ^ 10 ∧
    asMBDec size < 1024 ∧
    asMBInt 13450000 = 12 ∧ asMBDec 13450000 = 846 := by
  have hint : asMBInt size = size / 2 ^ 20 := by
    unfold asMBInt
    exact Nat.shiftRight_eq_div_pow size 20
  have hshl : wrapShl 64 (size / 2 ^ 20) 20 = size / 2 ^ 20 * 2 ^ 20 := by
    unfold wrapShl
    rw [Nat.shiftLeft_eq]
    exact Nat.mod_eq_of_lt (by omega)
  have hsub : wrapSub 64 size (size / 2 ^ 20 * 2 ^ 20) = size % 2 ^ 20 := by
    unfold wrapSub
    rw [if_pos (by omega)]
    rw [Nat.mod_eq_of_lt (by omega)]
    omega
  have hdec : asMBDec size = size % 2 ^ 20 / 2 ^ 10 := by
    unfold asMBDec
    simp only [hint, hshl, hsub]
    exact Nat.shiftRight_eq_div_pow _ 10
  refine ⟨hint, hdec, ?_, by decide, by decide⟩
  rw [hdec]
  omega

/-- Witness of C17: the data size 12780. -/
theorem C17_asMB_witness :
    (12780 : Nat) < 2 ^ 64 ∧ asMBInt 12780 = 12780 / 2 ^ 20 ∧ asMBDec 12780 < 1024 :=
  ⟨by norm_num, (C17_asMB 12780 (by norm_num)).1, (C17_asMB 12780 (by norm_num)).2.2.1⟩

/-- C20: for every 32-bit unsigned value `v` and every power-of-two alignment
`a = 2^k` (`k < 32`) with `v + a - 1 < 2^32`, `align(v, a)` is the smallest
multiple of `a` that is greater than or equal to `v`: a multiple of `a`, with
`v ≤ align(v, a) < v + a`, below every other such multiple, and equal to `v`
when `v` is already a multiple of `a`. `alignSizeNext` computes the same
function on `size_t`, whatever its number of bits: the same value as `align`
on these inputs when `size_t` has at least 32 bits, and the smallest multiple
of `a` at or above `w` for every `w` with `w + a - 1` representable. -/
theorem C20_align_smallest_multiple (v k : Nat) (hk : k < 32) (hv : v + 2 ^ k - 1 < 2 ^ 32) :
    IsSmallestMultipleGE (2 ^ k) v (align v (2 ^ k)) ∧
    align v (2 ^ k) = (v + 2 ^ k - 1) / 2 ^ k * 2 ^ k ∧
    (∀ bits, 32 ≤ bits → alignSizeNext bits v (2 ^ k) = align v (2 ^ k)) ∧
    (∀ bits w, k < bits → w + 2 ^ k - 1 < 2 ^ bits →
      IsSmallestMultipleGE (2 ^ k) w (alignSizeNext bits w (2 ^ k))) := by
  have hpos : 0 < 2 ^ k := Nat.two_pow_pos k
  refine ⟨?_, align_eq v k hk hv, ?_, ?_⟩
  · rw [align_eq v k hk hv]
    exact roundUp_isSmallest (2 ^ k) v hpos
  · intro bits hbits
    have hle : (2 : Nat) ^ 32 ≤ 2 ^ bits := Nat.pow_le_pow_right (by norm_num) hbits
    rw [align_eq v k hk hv, alignSizeNext_eq bits v k (by omega) (by omega)]
  · intro bits w hkb hw
    rw [alignSizeNext_eq bits w k hkb hw]
    exact roundUp_isSmallest (2 ^ k) w hpos

/-- Witness of C20: `align(13, 8)` is 16. -/
theorem C20_align_smallest_multiple_witness :
    (3 : Nat) < 32 ∧ 13 + 2 ^ 3 - 1 < 2 ^ 32 ∧
    align 13 (2 ^ 3) = (13 + 2 ^ 3 - 1) / 2 ^ 3 * 2 ^ 3 ∧ align 13 8 = 16 :=
  ⟨by decide, by norm_num, (C20_align_smallest_multiple 13 3 (by decide) (by norm_num)).2.1,
    by decide⟩

end dm
